import Mathlib

/-!
Verification of the event-to-value deserialization core of a YAML library
(the `de.rs` deserializer and the `loader.rs` event loader).

The development shallowly embeds the source:
* scalar parsing helpers (`parse_null`, `parse_bool`, `parse_unsigned_int`,
  `parse_negative_int`, `digits_but_not_number`, `visit_untagged_str`,
  `visit_scalar`) as pure Lean functions;
* the event-walking deserializer (`DeserializerFromEvents` and its
  `deserialize_*` methods) as state-passing functions over a cursor
  position and a by-value recursion budget, with a fuel parameter to make
  the (possibly alias-looping on malformed documents) recursion total;
* the loader (`Loader::new`) as a fold over the upstream parser's events.

Machine integers are modelled as `Nat`/`Int` with explicit bounds checks,
matching `from_str_radix`.  Floating point parsing (`str::parse::<f64>`)
is external library code; it is abstracted as a parameter
`pf : String → Option F64` where `F64` only records the finite/inf/nan
classification the deserializer inspects.
-/

set_option linter.unusedVariables false

namespace SY

/-! ## Source positions and scalar events -/

/-- A source position (`libyaml::error::Mark`): byte index, line, column. -/
structure Mark where
  index : Nat
  line : Nat
  column : Nat
deriving DecidableEq, Repr

/-- Scalar style (`libyaml::parser::ScalarStyle`). -/
inductive ScalarStyle where
  | plain
  | singleQuoted
  | doubleQuoted
  | literal
  | folded
deriving DecidableEq, Repr

/-- A scalar event's payload. The source stores raw bytes plus an optional
tag; scalars are modelled at the granularity of valid UTF-8 text, which is
the only case the claims under verification exercise. -/
structure Scalar where
  value : String
  style : ScalarStyle
  tag : Option String
deriving DecidableEq, Repr

/-- The `tag:yaml.org,2002:null` tag (`Tag::NULL`). -/
def tagNULL : String := "tag:yaml.org,2002:null"

/-- The `tag:yaml.org,2002:bool` tag (`Tag::BOOL`). -/
def tagBOOL : String := "tag:yaml.org,2002:bool"

/-- The `tag:yaml.org,2002:int` tag (`Tag::INT`). -/
def tagINT : String := "tag:yaml.org,2002:int"

/-- The `tag:yaml.org,2002:float` tag (`Tag::FLOAT`). -/
def tagFLOAT : String := "tag:yaml.org,2002:float"

/-- An event of the buffered document (`de::Event`). -/
inductive Event where
  | alias (id : Nat)
  | scalar (sc : Scalar)
  | sequenceStart
  | sequenceEnd
  | mappingStart
  | mappingEnd
deriving DecidableEq, Repr

/-! ## Errors

Errors are modelled structurally: serde's rendered message strings are
replaced by constructors carrying the same data (`invalid_type`,
`invalid_value`, `invalid_length`, `unknown_variant`), and the special
error constructors of `error.rs` keep their identity.  `fix_mark` fills in
a position exactly once, only on message-style errors that do not carry a
position yet, mirroring the source. -/

/-- What was unexpectedly found (`serde::de::Unexpected`). -/
inductive Unexp where
  | unit
  | bool (b : Bool)
  | unsigned (n : Nat)
  | signed (z : Int)
  | float
  | str (s : String)
  | bytes
  | seq
  | map
  | unitVariant
  | other (s : String)
deriving DecidableEq, Repr

/-- What was expected (`serde::de::Expected` renderings used by the source). -/
inductive Exp where
  | seqElems (n : Nat)
  | mapEntries (n : Nat)
  | tupleOfSize (n : Nat)
  | variantOfEnum (name : String)
  | desc (s : String)
deriving DecidableEq, Repr

/-- A serde-generated message (`ErrorImpl::Message` contents, structured). -/
inductive Msg where
  | invalidType (u : Unexp) (e : Exp)
  | invalidValue (u : Unexp) (e : Exp)
  | invalidLength (n : Nat) (e : Exp)
  | unknownVariant (v : String) (expected : List String)
deriving DecidableEq, Repr

/-- Error kinds (`error::ErrorImpl`, plus `panic` for the source's
`panic!`/`unreachable!` aborts and `outOfFuel` for the embedding's fuel). -/
inductive ErrKind where
  | message (m : Msg)
  | scan (s : String)
  | endOfStream
  | moreThanOneDocument
  | recursionLimitExceeded
  | unknownAnchor
  | panic (s : String)
  | outOfFuel
deriving DecidableEq, Repr

/-- An error together with its (optional) source position. -/
structure Err where
  kind : ErrKind
  mark : Option Mark
deriving DecidableEq, Repr

/-- A message error without position, as produced by `de::Error::custom`. -/
def msgErr (m : Msg) : Err := ⟨ErrKind.message m, none⟩

/-- `error::recursion_limit_exceeded(mark)`. -/
def recLimitErr (m : Mark) : Err := ⟨ErrKind.recursionLimitExceeded, some m⟩

/-- `error::unknown_anchor(mark)`. -/
def unknownAnchorErr (m : Mark) : Err := ⟨ErrKind.unknownAnchor, some m⟩

/-- A modelled `panic!` abort. -/
def panicErr (s : String) : Err := ⟨ErrKind.panic s, none⟩

/-- Fuel exhaustion of the embedding (never produced by the source). -/
def outOfFuelErr : Err := ⟨ErrKind.outOfFuel, none⟩

/-- `error::fix_mark`: fill in the position, only on a message-style error
that does not have one yet. -/
def fixMark (e : Err) (m : Mark) : Err :=
  match e with
  | ⟨ErrKind.message msg, none⟩ => ⟨ErrKind.message msg, some m⟩
  | _ => e

/-- `Result::map_err` composed with `fixMark`. -/
def fixMarkE (r : Except Err α) (m : Mark) : Except Err α :=
  match r with
  | Except.error e => Except.error (fixMark e m)
  | Except.ok v => Except.ok v

/-! ## Integer parsing (`from_str_radix` and the helpers of `de.rs`) -/

/-- `char::to_digit(radix)`. -/
def radDigit (radix : Nat) (c : Char) : Option Nat :=
  let v : Nat :=
    if '0' ≤ c ∧ c ≤ '9' then c.toNat - '0'.toNat
    else if 'a' ≤ c ∧ c ≤ 'z' then c.toNat - 'a'.toNat + 10
    else if 'A' ≤ c ∧ c ≤ 'Z' then c.toNat - 'A'.toNat + 10
    else 36
  if v < radix then some v else none

/-- Accumulate the value of a digit string in the given radix. -/
def digitsValGo (radix : Nat) (acc : Nat) : List Char → Option Nat
  | [] => some acc
  | c :: t =>
    match radDigit radix c with
    | some d => digitsValGo radix (acc * radix + d) t
    | none => none

/-- Value of a non-empty all-digit string in the given radix
(no sign handling; `none` on empty input or a bad digit). -/
def digitsVal (radix : Nat) : List Char → Option Nat
  | [] => none
  | cs => digitsValGo radix 0 cs

/-- `u64::from_str_radix`-style parsing at bit width `w`: an optional
leading `+`, then digits, bounded by `2^w`. -/
def fromStrRadixU (w : Nat) (s : List Char) (radix : Nat) : Option Nat :=
  let digits :=
    match s with
    | [] => none
    | '+' :: rest => digitsVal radix rest
    | cs => digitsVal radix cs
  match digits with
  | some v => if v < 2 ^ w then some v else none
  | none => none

/-- `i64::from_str_radix`-style parsing at bit width `w`: an optional
leading `+` or `-`, then digits, bounded by the signed range. -/
def fromStrRadixI (w : Nat) (s : List Char) (radix : Nat) : Option Int :=
  match s with
  | [] => none
  | '+' :: rest =>
    match digitsVal radix rest with
    | some v => if v < 2 ^ (w - 1) then some (v : Int) else none
    | none => none
  | '-' :: rest =>
    match digitsVal radix rest with
    | some v => if v ≤ 2 ^ (w - 1) then some (-(v : Int)) else none
    | none => none
  | cs =>
    match digitsVal radix cs with
    | some v => if v < 2 ^ (w - 1) then some (v : Int) else none
    | none => none

/-- Strip one leading `+` (`str::strip_prefix('+').unwrap_or(scalar)`). -/
def stripPlus (cs : List Char) : List Char :=
  match cs with
  | c :: rest => if c = '+' then rest else cs
  | [] => []

/-- Strip one leading sign character
(`str::strip_prefix(['-', '+']).unwrap_or(scalar)`). -/
def stripSign (cs : List Char) : List Char :=
  match cs with
  | c :: rest => if c = '-' ∨ c = '+' then rest else cs
  | [] => []

/-- Strip a two-character radix marker such as `0x`. -/
def stripRadixPre (c : Char) : List Char → Option (List Char)
  | c0 :: c1 :: rest => if c0 = '0' ∧ c1 = c then some rest else none
  | _ => none

/-- `de::parse_null` (byte-for-byte comparison with `~` and `null`). -/
def parse_null (v : String) : Option Unit :=
  if v = "~" ∨ v = "null" then some () else none

/-- `de::parse_bool` (also the semantics of `str::parse::<bool>`). -/
def parse_bool (v : String) : Option Bool :=
  if v = "true" then some true
  else if v = "false" then some false
  else none

/-- `de::digits_but_not_number`: after an optional sign, a leading zero
followed by one or more ASCII digits (YAML 1.2 rejects these as numbers). -/
def digits_but_not_number (scalar : String) : Bool :=
  match stripSign scalar.data with
  | c :: rest => c == '0' && !rest.isEmpty && rest.all (fun ch => ch.isDigit)
  | [] => false

/-- `de::parse_unsigned_int`, generic over the width-instantiated
`from_str_radix` function exactly as in the source. -/
def parse_unsigned_int (f : List Char → Nat → Option α) (scalar : String) : Option α :=
  let unpositive := stripPlus scalar.data
  match (stripRadixPre 'x' unpositive).bind (fun rest => f rest 16) with
  | some int => some int
  | none =>
  match (stripRadixPre 'o' unpositive).bind (fun rest => f rest 8) with
  | some int => some int
  | none =>
  match (stripRadixPre 'b' unpositive).bind (fun rest => f rest 2) with
  | some int => some int
  | none =>
  if digits_but_not_number scalar then none
  else f unpositive 10

/-- `de::parse_negative_int`, generic over the width-instantiated
`from_str_radix` function exactly as in the source (a `-0x…` input is
re-assembled as `-…` before radix parsing). -/
def parse_negative_int (f : List Char → Nat → Option α) (scalar : String) : Option α :=
  let tryNeg : Char → Nat → Option α := fun c radix =>
    match scalar.data with
    | c0 :: rest =>
      if c0 = '-' then (stripRadixPre c rest).bind (fun digits => f ('-' :: digits) radix)
      else none
    | [] => none
  match tryNeg 'x' 16 with
  | some int => some int
  | none =>
  match tryNeg 'o' 8 with
  | some int => some int
  | none =>
  match tryNeg 'b' 2 with
  | some int => some int
  | none =>
  if digits_but_not_number scalar then none
  else f scalar.data 10

/-! ## Floats

`str::parse::<f64>` is standard-library code outside this repository; only
its classification of the result matters to `de.rs`, so the parser is a
parameter and a parsed float is classified as finite / +inf / -inf / NaN. -/

/-- Classification of a parsed IEEE-754 double.  `finite bits` stands for
any finite double (the payload is its bit pattern, never inspected). -/
inductive F64 where
  | finite (bits : Nat)
  | inf
  | negInf
  | nan
deriving DecidableEq, Repr

/-- `f64::is_finite`. -/
def F64.isFinite : F64 → Bool
  | F64.finite _ => true
  | _ => false

/-- The type of the abstracted `str::parse::<f64>`. -/
abbrev PF := String → Option F64

/-- A trivial instantiation of the float parser used by concrete examples
that never reach the float step. -/
def pfNone : PF := fun _ => none

/-! ## The visit call produced for one scalar

A serde visitor receives exactly one `visit_*` call per decoded scalar;
the call and its argument are reified as a `Visit` value. -/

/-- Which visitor method `visit_scalar`/`visit_untagged_str` invokes. -/
inductive Visit where
  | unit
  | bool (b : Bool)
  | u64 (n : Nat)
  | i64 (z : Int)
  | u128 (n : Nat)
  | i128 (z : Int)
  | f64 (x : F64)
  | str (s : String)
deriving DecidableEq, Repr

/-- Is the (`+`-stripped) text one of `.inf`/`.Inf`/`.INF`? -/
def isPosInfLit (v : String) : Bool :=
  let u := stripPlus v.data
  u = ".inf".data || u = ".Inf".data || u = ".INF".data

/-- Is the text one of `-.inf`/`-.Inf`/`-.INF`? -/
def isNegInfLit (v : String) : Bool :=
  v = "-.inf" || v = "-.Inf" || v = "-.INF"

/-- Is the text one of `.nan`/`.NaN`/`.NAN`? -/
def isNanLit (v : String) : Bool :=
  v = ".nan" || v = ".NaN" || v = ".NAN"

/-- `de::visit_untagged_str`: the fixed-priority inference for a plain,
untagged scalar, reified as the visitor call it performs. -/
def visit_untagged_str (pf : PF) (v : String) : Visit :=
  if v = "" ∨ parse_null v = some () then Visit.unit
  else match parse_bool v with
  | some boolean => Visit.bool boolean
  | none =>
  match parse_unsigned_int (fromStrRadixU 64) v with
  | some int => Visit.u64 int
  | none =>
  match parse_negative_int (fromStrRadixI 64) v with
  | some int => Visit.i64 int
  | none =>
  match parse_unsigned_int (fromStrRadixU 128) v with
  | some int => Visit.u128 int
  | none =>
  match parse_negative_int (fromStrRadixI 128) v with
  | some int => Visit.i128 int
  | none =>
  if digits_but_not_number v then Visit.str v
  else if isPosInfLit v then Visit.f64 F64.inf
  else if isNegInfLit v then Visit.f64 F64.negInf
  else if isNanLit v then Visit.f64 F64.nan
  else match pf v with
  | some n => if n.isFinite then Visit.f64 n else Visit.str v
  | none => Visit.str v

/-- `de::visit_scalar`: tag-directed parsing first, then style, then
untagged inference.  (Scalar bytes are modelled as already valid UTF-8.) -/
def visit_scalar (pf : PF) (sc : Scalar) : Except Err Visit :=
  match sc.tag with
  | some tg =>
    if tg = tagBOOL then
      match parse_bool sc.value with
      | some b => Except.ok (Visit.bool b)
      | none => Except.error (msgErr (Msg.invalidValue (Unexp.str sc.value) (Exp.desc "a boolean")))
    else if tg = tagINT then
      match fromStrRadixI 64 sc.value.data 10 with
      | some z => Except.ok (Visit.i64 z)
      | none => Except.error (msgErr (Msg.invalidValue (Unexp.str sc.value) (Exp.desc "an integer")))
    else if tg = tagFLOAT then
      match pf sc.value with
      | some x => Except.ok (Visit.f64 x)
      | none => Except.error (msgErr (Msg.invalidValue (Unexp.str sc.value) (Exp.desc "a float")))
    else if tg = tagNULL then
      match parse_null sc.value with
      | some () => Except.ok Visit.unit
      | none => Except.error (msgErr (Msg.invalidValue (Unexp.str sc.value) (Exp.desc "null")))
    else Except.ok (Visit.str sc.value)
  | none =>
    if sc.style = ScalarStyle.plain then Except.ok (visit_untagged_str pf sc.value)
    else Except.ok (Visit.str sc.value)

/-! ## Documents and deserializer state

`DeserializerFromEvents` holds a shared `&mut usize` cursor and a by-value
`remaining_depth` budget.  Both are threaded explicitly: every call takes a
`DeState` and returns the final `DeState` alongside the result, so the
source's copy/restore discipline for the budget is visible.  A `fuel`
parameter makes the recursion total; `outOfFuelErr` is an artifact of the
embedding, never of the source. -/

/-- A buffered document (`loader::Document` as consumed by `de.rs`):
positioned events, the anchor index, and an optional parse (scan) error
reported when walking past the buffered events. -/
structure Document where
  events : List (Event × Mark)
  aliases : List (Nat × Nat)
  perror : Option String
deriving DecidableEq, Repr

/-- Cursor position plus remaining recursion budget. -/
structure DeState where
  pos : Nat
  depth : Nat
deriving DecidableEq, Repr

/-- Result of a deserializer call: outcome plus final state (the source's
`self` persists across an `Err` return). -/
abbrev Res (α : Type) := Except Err α × DeState

/-- The error produced when peeking past the buffered events
(`peek_event_mark`'s `None` arm). -/
def peekPastEnd (doc : Document) : Err :=
  match doc.perror with
  | some msg => ⟨ErrKind.scan msg, none⟩
  | none => ⟨ErrKind.endOfStream, none⟩

/-- `DeserializerFromEvents::peek_event_mark`. -/
def peek (doc : Document) (s : DeState) : Except Err (Event × Mark) :=
  match doc.events[s.pos]? with
  | some em => Except.ok em
  | none => Except.error (peekPastEnd doc)

/-- `DeserializerFromEvents::recursion_check`: decrement the budget for
the duration of `f`, restoring the caller's value afterwards — also when
`f` fails; fail with `recursion_limit_exceeded` at `mark` when the budget
is already zero. -/
def recursion_check (mark : Mark) (f : DeState → Res α) (s : DeState) : Res α :=
  match s.depth with
  | 0 => (Except.error (recLimitErr mark), s)
  | d + 1 =>
    let (r, s') := f ⟨s.pos, d⟩
    (r, ⟨s'.pos, d + 1⟩)

/-- The two container kinds tracked by `ignore_any`'s explicit stack. -/
inductive Nest where
  | seq
  | map
deriving DecidableEq, Repr

/-- The loop of `DeserializerFromEvents::ignore_any`: skip one complete
node with an explicit stack, treating `Alias` and `Scalar` as leaves.  It
takes only a cursor — the recursion budget is never consulted.  The loop
consumes one event per iteration and stops once the buffered events run
out, so the structural `fuel` below is only a termination bound;
`ignore_any` instantiates it so that it never runs out. -/
def ignoreGo (doc : Document) : Nat → List Nest → Nat → Except Err Unit × Nat
  | 0, _, pos => (Except.error outOfFuelErr, pos)
  | fuel + 1, stack, pos =>
    match doc.events[pos]? with
    | none => (Except.error (peekPastEnd doc), pos)
    | some (ev, _) =>
      match ev with
      | Event.alias _ =>
        if stack.isEmpty then (Except.ok (), pos + 1) else ignoreGo doc fuel stack (pos + 1)
      | Event.scalar _ =>
        if stack.isEmpty then (Except.ok (), pos + 1) else ignoreGo doc fuel stack (pos + 1)
      | Event.sequenceStart => ignoreGo doc fuel (Nest.seq :: stack) (pos + 1)
      | Event.mappingStart => ignoreGo doc fuel (Nest.map :: stack) (pos + 1)
      | Event.sequenceEnd =>
        match stack with
        | Nest.seq :: rest =>
          if rest.isEmpty then (Except.ok (), pos + 1) else ignoreGo doc fuel rest (pos + 1)
        | _ => (Except.error (panicErr "unexpected end of sequence"), pos + 1)
      | Event.mappingEnd =>
        match stack with
        | Nest.map :: rest =>
          if rest.isEmpty then (Except.ok (), pos + 1) else ignoreGo doc fuel rest (pos + 1)
        | _ => (Except.error (panicErr "unexpected end of mapping"), pos + 1)

/-- `DeserializerFromEvents::ignore_any` (starts with an empty stack; the
termination bound of one iteration per remaining buffered event is always
sufficient, since the loop stops at the end of the buffer). -/
def ignore_any (doc : Document) (pos : Nat) : Except Err Unit × Nat :=
  ignoreGo doc (doc.events.length + 1 - pos) [] pos

/-- Tail of `end_sequence`: drain remaining elements via `ignore_any`
(that is what `SeqAccess::next_element::<IgnoredAny>` does), consume the
`SequenceEnd`, then compare the drained total against the count the
visitor consumed. -/
def endSeqDrain (doc : Document) : Nat → DeState → Nat → Nat → Res Unit
  | 0, s, _, _ => (Except.error outOfFuelErr, s)
  | fuel + 1, s, len, total =>
    match peek doc s with
    | Except.error e => (Except.error e, s)
    | Except.ok (ev, _) =>
      match ev with
      | Event.sequenceEnd =>
        let s' : DeState := ⟨s.pos + 1, s.depth⟩
        if total = len then (Except.ok (), s')
        else (Except.error (msgErr (Msg.invalidLength total (Exp.seqElems len))), s')
      | _ =>
        let (r, p') := ignore_any doc s.pos
        match r with
        | Except.error e => (Except.error e, ⟨p', s.depth⟩)
        | Except.ok () => endSeqDrain doc fuel ⟨p', s.depth⟩ len (total + 1)

/-- `DeserializerFromEvents::end_sequence`. -/
def end_sequence (doc : Document) (fuel : Nat) (s : DeState) (len : Nat) : Res Unit :=
  endSeqDrain doc fuel s len len

/-- Tail of `end_mapping`: drain remaining entries (key and value each via
`ignore_any`), consume the `MappingEnd`, then compare counts. -/
def endMapDrain (doc : Document) : Nat → DeState → Nat → Nat → Res Unit
  | 0, s, _, _ => (Except.error outOfFuelErr, s)
  | fuel + 1, s, len, total =>
    match peek doc s with
    | Except.error e => (Except.error e, s)
    | Except.ok (ev, _) =>
      match ev with
      | Event.mappingEnd =>
        let s' : DeState := ⟨s.pos + 1, s.depth⟩
        if total = len then (Except.ok (), s')
        else (Except.error (msgErr (Msg.invalidLength total (Exp.mapEntries len))), s')
      | _ =>
        let (rk, p1) := ignore_any doc s.pos
        match rk with
        | Except.error e => (Except.error e, ⟨p1, s.depth⟩)
        | Except.ok () =>
          let (rv, p2) := ignore_any doc p1
          match rv with
          | Except.error e => (Except.error e, ⟨p2, s.depth⟩)
          | Except.ok () => endMapDrain doc fuel ⟨p2, s.depth⟩ len (total + 1)

/-- `DeserializerFromEvents::end_mapping`. -/
def end_mapping (doc : Document) (fuel : Nat) (s : DeState) (len : Nat) : Res Unit :=
  endMapDrain doc fuel s len len

/-! ## The generic (`deserialize_any`) path producing a dynamic value -/

/-- A dynamically-typed decoded value (the shape a `Value`-style visitor
builds on the `deserialize_any` path). -/
inductive YVal where
  | unit
  | bool (b : Bool)
  | u64 (n : Nat)
  | i64 (z : Int)
  | u128 (n : Nat)
  | i128 (z : Int)
  | f64 (x : F64)
  | str (s : String)
  | seq (xs : List YVal)
  | map (kvs : List (YVal × YVal))

/-- Lift a reified visitor call into a dynamic value. -/
def visitToYVal : Visit → YVal
  | Visit.unit => YVal.unit
  | Visit.bool b => YVal.bool b
  | Visit.u64 n => YVal.u64 n
  | Visit.i64 z => YVal.i64 z
  | Visit.u128 n => YVal.u128 n
  | Visit.i128 z => YVal.i128 z
  | Visit.f64 x => YVal.f64 x
  | Visit.str s => YVal.str s

mutual

/-- `deserialize_any` driving a dynamic-value visitor.  An `Alias` jumps
to the anchor position with a fresh cursor (the main cursor only steps
past the alias event) and an unchanged budget; containers go through
`recursion_check` and `end_sequence`/`end_mapping`. -/
def anyValue (doc : Document) (pf : PF) : Nat → DeState → Res YVal
  | 0, s => (Except.error outOfFuelErr, s)
  | fuel + 1, s =>
    match peek doc s with
    | Except.error e => (Except.error e, s)
    | Except.ok (ev, mark) =>
      let s1 : DeState := ⟨s.pos + 1, s.depth⟩
      match ev with
      | Event.alias id =>
        match (doc.aliases.lookup id) with
        | some t =>
          let (r, _) := anyValue doc pf fuel ⟨t, s1.depth⟩
          (fixMarkE r mark, s1)
        | none => (Except.error (panicErr "unresolved alias"), s1)
      | Event.scalar sc => (fixMarkE ((visit_scalar pf sc).map visitToYVal) mark, s1)
      | Event.sequenceStart =>
        let (rb, s2) := recursion_check mark (fun st => anySeqItems doc pf fuel st 0 []) s1
        match rb with
        | Except.error e => (fixMarkE (Except.error e) mark, s2)
        | Except.ok (elems, len) =>
          let (re, s3) := end_sequence doc fuel s2 len
          match re with
          | Except.error e => (fixMarkE (Except.error e) mark, s3)
          | Except.ok () => (Except.ok (YVal.seq elems), s3)
      | Event.mappingStart =>
        let (rb, s2) := recursion_check mark (fun st => anyMapItems doc pf fuel st 0 []) s1
        match rb with
        | Except.error e => (fixMarkE (Except.error e) mark, s2)
        | Except.ok (entries, len) =>
          let (re, s3) := end_mapping doc fuel s2 len
          match re with
          | Except.error e => (fixMarkE (Except.error e) mark, s3)
          | Except.ok () => (Except.ok (YVal.map entries), s3)
      | Event.sequenceEnd => (Except.error (panicErr "unexpected end of sequence"), s1)
      | Event.mappingEnd => (Except.error (panicErr "unexpected end of mapping"), s1)

/-- The dynamic-value visitor's `visit_seq` loop: `next_element` until the
`SequenceEnd` is peeked.  Each element deserializer is a fresh copy
carrying the loop's budget, so element-side budget changes never flow
back. -/
def anySeqItems (doc : Document) (pf : PF) :
    Nat → DeState → Nat → List YVal → Res (List YVal × Nat)
  | 0, s, _, _ => (Except.error outOfFuelErr, s)
  | fuel + 1, s, len, acc =>
    match peek doc s with
    | Except.error e => (Except.error e, s)
    | Except.ok (ev, _) =>
      match ev with
      | Event.sequenceEnd => (Except.ok (acc.reverse, len), s)
      | _ =>
        let (r, s') := anyValue doc pf fuel ⟨s.pos, s.depth⟩
        match r with
        | Except.error e => (Except.error e, ⟨s'.pos, s.depth⟩)
        | Except.ok v => anySeqItems doc pf fuel ⟨s'.pos, s.depth⟩ (len + 1) (v :: acc)

/-- The dynamic-value visitor's `visit_map` loop: `next_entry` until the
`MappingEnd` is peeked.  Keys are deserialized through the borrowed
deserializer itself; values through a fresh copy of it. -/
def anyMapItems (doc : Document) (pf : PF) :
    Nat → DeState → Nat → List (YVal × YVal) → Res (List (YVal × YVal) × Nat)
  | 0, s, _, _ => (Except.error outOfFuelErr, s)
  | fuel + 1, s, len, acc =>
    match peek doc s with
    | Except.error e => (Except.error e, s)
    | Except.ok (ev, _) =>
      match ev with
      | Event.mappingEnd => (Except.ok (acc.reverse, len), s)
      | _ =>
        let (rk, sk) := anyValue doc pf fuel s
        match rk with
        | Except.error e => (Except.error e, sk)
        | Except.ok kv =>
          let (rv, sv) := anyValue doc pf fuel ⟨sk.pos, sk.depth⟩
          match rv with
          | Except.error e => (Except.error e, ⟨sv.pos, sk.depth⟩)
          | Except.ok vv =>
            anyMapItems doc pf fuel ⟨sv.pos, sk.depth⟩ (len + 1) ((kv, vv) :: acc)

end

/-- `Deserializer::de`: deserialize one document's value from position 0
with the fixed initial recursion budget of 128. -/
def deAnyDocument (doc : Document) (pf : PF) (fuel : Nat) : Res YVal :=
  anyValue doc pf fuel ⟨0, 128⟩

/-! ## Typed entry points -/

/-- The `Unexpected` that the `de::invalid_type` helper reports for a
scalar, derived from the visitor call `visit_scalar` would perform
(serde's default visitor methods turn that call into an
`invalid_type` error). -/
def unexpOfVisit : Visit → Unexp
  | Visit.unit => Unexp.unit
  | Visit.bool b => Unexp.bool b
  | Visit.u64 n => Unexp.unsigned n
  | Visit.i64 z => Unexp.signed z
  | Visit.u128 _ => Unexp.other "u128"
  | Visit.i128 _ => Unexp.other "i128"
  | Visit.f64 _ => Unexp.float
  | Visit.str s => Unexp.str s

/-- `de::invalid_type`: build the type error for an event that did not
match the requested shape, running the scalar through `visit_scalar` with
an error-probing visitor (tag parse failures surface as-is). -/
def invalidTypeErr (pf : PF) (ev : Event) (exp : Exp) : Err :=
  match ev with
  | Event.alias _ => panicErr "unreachable"
  | Event.scalar sc =>
    match visit_scalar pf sc with
    | Except.ok vis => msgErr (Msg.invalidType (unexpOfVisit vis) exp)
    | Except.error e => e
  | Event.sequenceStart => msgErr (Msg.invalidType Unexp.seq exp)
  | Event.mappingStart => msgErr (Msg.invalidType Unexp.map exp)
  | Event.sequenceEnd => panicErr "unexpected end of sequence"
  | Event.mappingEnd => panicErr "unexpected end of mapping"

/-- serde's `u64` deserialize-impl visitor applied to a reified visitor
call: accept any in-range integer call, reject everything else. -/
def u64FromVisit : Visit → Except Err Nat
  | Visit.u64 n => Except.ok n
  | Visit.i64 z =>
    if 0 ≤ z then Except.ok z.toNat
    else Except.error (msgErr (Msg.invalidValue (Unexp.signed z) (Exp.desc "u64")))
  | Visit.u128 n =>
    if n < 2 ^ 64 then Except.ok n
    else Except.error (msgErr (Msg.invalidValue (Unexp.other "u128") (Exp.desc "u64")))
  | Visit.i128 z =>
    if 0 ≤ z ∧ z < 2 ^ 64 then Except.ok z.toNat
    else Except.error (msgErr (Msg.invalidValue (Unexp.other "i128") (Exp.desc "u64")))
  | v => Except.error (msgErr (Msg.invalidType (unexpOfVisit v) (Exp.desc "u64")))

/-- `deserialize_u64` (via `deserialize_scalar`): consume the event;
follow an alias through a fresh jumped deserializer; run a scalar through
`visit_scalar` and the `u64` visitor; otherwise a type error.  The whole
outcome gets `fix_mark`ed with the consumed event's mark. -/
def de_u64 (doc : Document) (pf : PF) : Nat → DeState → Res Nat
  | 0, s => (Except.error outOfFuelErr, s)
  | fuel + 1, s =>
    match peek doc s with
    | Except.error e => (Except.error e, s)
    | Except.ok (ev, mark) =>
      let s1 : DeState := ⟨s.pos + 1, s.depth⟩
      match ev with
      | Event.alias id =>
        match doc.aliases.lookup id with
        | some t =>
          let (r, _) := de_u64 doc pf fuel ⟨t, s.depth⟩
          (fixMarkE r mark, s1)
        | none => (Except.error (panicErr "unresolved alias"), s1)
      | Event.scalar sc =>
        (fixMarkE ((visit_scalar pf sc).bind u64FromVisit) mark, s1)
      | other => (fixMarkE (Except.error (invalidTypeErr pf other (Exp.desc "u64"))) mark, s1)

/-- `deserialize_bool`: consume the event; follow an alias; accept only a
plain-styled scalar whose text parses with `parse_bool`; everything else
is the `invalid_type` error for the boolean visitor. -/
def de_bool (doc : Document) (pf : PF) : Nat → DeState → Res Bool
  | 0, s => (Except.error outOfFuelErr, s)
  | fuel + 1, s =>
    match peek doc s with
    | Except.error e => (Except.error e, s)
    | Except.ok (ev, mark) =>
      let s1 : DeState := ⟨s.pos + 1, s.depth⟩
      match ev with
      | Event.alias id =>
        match doc.aliases.lookup id with
        | some t =>
          let (r, _) := de_bool doc pf fuel ⟨t, s.depth⟩
          (fixMarkE r mark, s1)
        | none => (Except.error (panicErr "unresolved alias"), s1)
      | Event.scalar sc =>
        if sc.style = ScalarStyle.plain then
          match parse_bool sc.value with
          | some b => (Except.ok b, s1)
          | none =>
            (fixMarkE (Except.error (invalidTypeErr pf ev (Exp.desc "a boolean"))) mark, s1)
        else (fixMarkE (Except.error (invalidTypeErr pf ev (Exp.desc "a boolean"))) mark, s1)
      | other =>
        (fixMarkE (Except.error (invalidTypeErr pf other (Exp.desc "a boolean"))) mark, s1)

/-- `deserialize_str`: consume the event; a scalar's (valid UTF-8) text is
passed to `visit_str` verbatim, whatever its style and tag; an alias is
followed; anything else is a type error. -/
def de_str (doc : Document) (pf : PF) : Nat → DeState → Res String
  | 0, s => (Except.error outOfFuelErr, s)
  | fuel + 1, s =>
    match peek doc s with
    | Except.error e => (Except.error e, s)
    | Except.ok (ev, mark) =>
      let s1 : DeState := ⟨s.pos + 1, s.depth⟩
      match ev with
      | Event.scalar sc => (Except.ok sc.value, s1)
      | Event.alias id =>
        match doc.aliases.lookup id with
        | some t =>
          let (r, _) := de_str doc pf fuel ⟨t, s.depth⟩
          (fixMarkE r mark, s1)
        | none => (Except.error (panicErr "unresolved alias"), s1)
      | other =>
        (fixMarkE (Except.error (invalidTypeErr pf other (Exp.desc "a string"))) mark, s1)

/-- `deserialize_string` forwards to `deserialize_str`. -/
def de_string (doc : Document) (pf : PF) (fuel : Nat) (s : DeState) : Res String :=
  de_str doc pf fuel s

/-- `deserialize_char` forwards to `deserialize_str`. -/
def de_char (doc : Document) (pf : PF) (fuel : Nat) (s : DeState) : Res String :=
  de_str doc pf fuel s

/-- `deserialize_identifier` forwards to `deserialize_str`. -/
def de_identifier (doc : Document) (pf : PF) (fuel : Nat) (s : DeState) : Res String :=
  de_str doc pf fuel s

/-- `deserialize_ignored_any`: `ignore_any`, then `visit_unit`. -/
def de_ignored_any (doc : Document) (s : DeState) : Res Unit :=
  let (r, p') := ignore_any doc s.pos
  (r, ⟨p', s.depth⟩)

/-- `deserialize_option`, generic in the `visit_some` continuation `k`
(the target type's deserialization run on the still-unconsumed value).
The event is only peeked.  A `None` is produced — consuming the event —
exactly per the source's `is_some` computation; a `!!null`-tagged plain
scalar with any other text fails early with an `invalid_value`. -/
def de_option (doc : Document) (k : Nat → DeState → Res (Option α)) :
    Nat → DeState → Res (Option α)
  | 0, s => (Except.error outOfFuelErr, s)
  | fuel + 1, s =>
    match peek doc s with
    | Except.error e => (Except.error e, s)
    | Except.ok (ev, _) =>
      match ev with
      | Event.alias id =>
        let s1 : DeState := ⟨s.pos + 1, s.depth⟩
        match doc.aliases.lookup id with
        | some t =>
          let (r, _) := de_option doc k fuel ⟨t, s.depth⟩
          (r, s1)
        | none => (Except.error (panicErr "unresolved alias"), s1)
      | Event.scalar sc =>
        if sc.style ≠ ScalarStyle.plain then k fuel s
        else
          match sc.tag with
          | some tg =>
            if tg = tagNULL then
              match parse_null sc.value with
              | some () => (Except.ok none, ⟨s.pos + 1, s.depth⟩)
              | none =>
                (Except.error (msgErr (Msg.invalidValue (Unexp.str sc.value) (Exp.desc "null"))), s)
            else k fuel s
          | none =>
            if sc.value ≠ "" ∧ parse_null sc.value = none then k fuel s
            else (Except.ok none, ⟨s.pos + 1, s.depth⟩)
      | Event.sequenceStart => k fuel s
      | Event.mappingStart => k fuel s
      | Event.sequenceEnd => (Except.error (panicErr "unexpected end of sequence"), s)
      | Event.mappingEnd => (Except.error (panicErr "unexpected end of mapping"), s)

/-- `Option<bool>`'s deserialization: `deserialize_option` whose
`visit_some` deserializes a `bool` from the same position. -/
def de_option_bool (doc : Document) (pf : PF) (fuel : Nat) (s : DeState) : Res (Option Bool) :=
  de_option doc
    (fun f st =>
      let (r, s') := de_bool doc pf f st
      (r.map some, s'))
    fuel s

/-- serde's derived tuple visitor body: read exactly `n` elements through
`SeqAccess::next_element` (here with `u64` elements); a premature
`SequenceEnd` is `invalid_length i, expected a tuple of size n`. -/
def tupleElems (doc : Document) (pf : PF) (n : Nat) :
    Nat → DeState → Nat → List Nat → Res (List Nat × Nat)
  | 0, s, _, _ => (Except.error outOfFuelErr, s)
  | fuel + 1, s, len, acc =>
    if acc.length = n then (Except.ok (acc.reverse, len), s)
    else
      match peek doc s with
      | Except.error e => (Except.error e, s)
      | Except.ok (ev, _) =>
        match ev with
        | Event.sequenceEnd =>
          (Except.error (msgErr (Msg.invalidLength acc.length (Exp.tupleOfSize n))), s)
        | _ =>
          let (r, s') := de_u64 doc pf fuel ⟨s.pos, s.depth⟩
          match r with
          | Except.error e => (Except.error e, ⟨s'.pos, s.depth⟩)
          | Except.ok v => tupleElems doc pf n fuel ⟨s'.pos, s.depth⟩ (len + 1) (v :: acc)

/-- An `n`-tuple's deserialization (`deserialize_tuple` = `deserialize_seq`
with the tuple visitor): follow aliases; on `SequenceStart` run the tuple
visitor inside `recursion_check`, then `end_sequence` with the consumed
count; anything else is a type error against the tuple visitor. -/
def de_tuple (doc : Document) (pf : PF) (n : Nat) : Nat → DeState → Res (List Nat)
  | 0, s => (Except.error outOfFuelErr, s)
  | fuel + 1, s =>
    match peek doc s with
    | Except.error e => (Except.error e, s)
    | Except.ok (ev, mark) =>
      let s1 : DeState := ⟨s.pos + 1, s.depth⟩
      match ev with
      | Event.alias id =>
        match doc.aliases.lookup id with
        | some t =>
          let (r, _) := de_tuple doc pf n fuel ⟨t, s.depth⟩
          (fixMarkE r mark, s1)
        | none => (Except.error (panicErr "unresolved alias"), s1)
      | Event.sequenceStart =>
        let (rb, s2) := recursion_check mark (fun st => tupleElems doc pf n fuel st 0 []) s1
        match rb with
        | Except.error e => (fixMarkE (Except.error e) mark, s2)
        | Except.ok (elems, len) =>
          let (re, s3) := end_sequence doc fuel s2 len
          match re with
          | Except.error e => (fixMarkE (Except.error e) mark, s3)
          | Except.ok () => (Except.ok elems, s3)
      | other =>
        (fixMarkE (Except.error (invalidTypeErr pf other (Exp.tupleOfSize n))) mark, s1)

/-- The custom-tag test of `deserialize_enum`: a scalar tag whose bytes
start with `!` and whose remainder equals a known variant name. -/
def tagVariant (tag : Option String) (variants : List String) : Option Nat :=
  match tag with
  | some t =>
    match t.data with
    | '!' :: rest => variants.findIdx? (fun v => v.data = rest)
    | _ => none
  | none => none

/-- A derived enum's deserialization (`deserialize_enum` with every
variant a `u64` newtype, as in `First(u8)/Second(u8)`), returning the
variant's index and payload.  On `MappingStart` it consumes exactly one
key (the variant name) and its value, then `end_mapping(1)` requires the
mapping to close. -/
def de_enum (doc : Document) (pf : PF) (ename : String) (variants : List String) :
    Nat → DeState → Res (Nat × Nat)
  | 0, s => (Except.error outOfFuelErr, s)
  | fuel + 1, s =>
    match peek doc s with
    | Except.error e => (Except.error e, s)
    | Except.ok (ev, mark) =>
      match ev with
      | Event.alias id =>
        let s1 : DeState := ⟨s.pos + 1, s.depth⟩
        match doc.aliases.lookup id with
        | some t =>
          let (r, _) := de_enum doc pf ename variants fuel ⟨t, s.depth⟩
          (r, s1)
        | none => (Except.error (panicErr "unresolved alias"), s1)
      | Event.scalar sc =>
        match tagVariant sc.tag variants with
        | some idx =>
          let (r, s') := de_u64 doc pf fuel s
          (r.map (fun v => (idx, v)), s')
        | none =>
          let (r, s') := de_str doc pf fuel s
          match r with
          | Except.error e => (Except.error e, s')
          | Except.ok name =>
            match variants.findIdx? (fun v => v = name) with
            | some _ =>
              (Except.error (msgErr (Msg.invalidType Unexp.unitVariant (Exp.desc "newtype variant"))), s')
            | none => (Except.error (msgErr (Msg.unknownVariant name variants)), s')
      | Event.mappingStart =>
        let s1 : DeState := ⟨s.pos + 1, s.depth⟩
        match peek doc s1 with
        | Except.error e => (Except.error e, s1)
        | Except.ok (kev, kmark) =>
          let s2 : DeState := ⟨s1.pos + 1, s.depth⟩
          match kev with
          | Event.scalar ksc =>
            match variants.findIdx? (fun v => v = ksc.value) with
            | none => (Except.error (msgErr (Msg.unknownVariant ksc.value variants)), s2)
            | some idx =>
              let (r, s3) := de_u64 doc pf fuel ⟨s2.pos, s2.depth⟩
              match r with
              | Except.error e => (Except.error e, ⟨s3.pos, s2.depth⟩)
              | Except.ok v =>
                let (re, s4) := end_mapping doc fuel ⟨s3.pos, s2.depth⟩ 1
                match re with
                | Except.error e => (Except.error e, s4)
                | Except.ok () => (Except.ok (idx, v), s4)
          | Event.sequenceStart =>
            (Except.error (fixMark (msgErr (Msg.invalidType Unexp.seq (Exp.variantOfEnum ename))) kmark), s2)
          | Event.mappingStart =>
            (Except.error (fixMark (msgErr (Msg.invalidType Unexp.map (Exp.variantOfEnum ename))) kmark), s2)
          | _ =>
            (Except.error (fixMark (msgErr (Msg.invalidType (Unexp.other "bad key") (Exp.variantOfEnum ename))) kmark), s2)
      | Event.sequenceStart =>
        (Except.error (fixMark (msgErr (Msg.invalidType Unexp.seq (Exp.desc "string or singleton map"))) mark), s)
      | Event.sequenceEnd => (Except.error (panicErr "unexpected end of sequence"), s)
      | Event.mappingEnd => (Except.error (panicErr "unexpected end of mapping"), s)

/-! ## The loader (`loader.rs`)

`Loader::new` folds the upstream parser's event stream into a buffer of
positioned events, an alias index, and per-document lengths, maintaining a
single transient anchor-name map for the whole stream. -/

/-- An upstream parser event (`libyaml::parser::Event`), with anchors. -/
inductive YIn where
  | streamStart
  | streamEnd
  | documentStart
  | documentEnd
  | alias (anchor : String)
  | scalar (anchor : Option String) (sc : Scalar)
  | sequenceStart (anchor : Option String)
  | sequenceEnd
  | mappingStart (anchor : Option String)
  | mappingEnd
deriving DecidableEq, Repr

/-- The loader's output (`loader::Loader`'s fields). -/
structure LoaderOut where
  events : List (Event × Mark)
  aliases : List (Nat × Nat)
  documentLengths : List (Nat × Nat)
deriving DecidableEq, Repr

/-- The in-progress state of `Loader::new`'s loop: the output so far, the
transient anchor-name map (never cleared between documents), and the
current document's start index. -/
structure LoadState where
  out : LoaderOut
  anchors : List (String × Nat)
  curStart : Nat
deriving DecidableEq, Repr

/-- The initial loader state. -/
def loadInit : LoadState := ⟨⟨[], [], []⟩, [], 0⟩

/-- `BTreeMap::insert` on an association list: replace the binding if the
key is present (keeping the unique-key count), else append. -/
def alInsert (k : String) (v : Nat) : List (String × Nat) → List (String × Nat)
  | [] => [(k, v)]
  | (k', v') :: t => if k' = k then (k, v) :: t else (k', v') :: alInsert k v t

/-- Append one buffered event, registering its anchor (if any) with a
fresh local id taken from the anchor map's size. -/
def pushAnchored (st : LoadState) (anchor : Option String) (ev : Event) (m : Mark) : LoadState :=
  let st' :=
    match anchor with
    | some a =>
      let id := st.anchors.length
      { st with
        anchors := alInsert a id st.anchors
        out := { st.out with aliases := st.out.aliases ++ [(id, st.out.events.length)] } }
    | none => st
  { st' with out := { st'.out with events := st'.out.events ++ [(ev, m)] } }

/-- One step of `Loader::new`'s loop on a non-terminating parser event,
`none` signalling the fatal unknown-anchor condition. -/
def loadStep (st : LoadState) (e : YIn) (m : Mark) : Option LoadState :=
  match e with
  | YIn.streamStart => some st
  | YIn.streamEnd => some st
  | YIn.documentStart => some { st with curStart := st.out.events.length }
  | YIn.documentEnd =>
    let len := st.out.events.length - st.curStart
    some
      { st with
        out := { st.out with documentLengths := st.out.documentLengths ++ [(st.curStart, len)] }
        curStart := st.out.events.length }
  | YIn.alias a =>
    match st.anchors.lookup a with
    | some id => some (pushAnchored st none (Event.alias id) m)
    | none => none
  | YIn.scalar anchor sc => some (pushAnchored st anchor (Event.scalar sc) m)
  | YIn.sequenceStart anchor => some (pushAnchored st anchor Event.sequenceStart m)
  | YIn.sequenceEnd => some (pushAnchored st none Event.sequenceEnd m)
  | YIn.mappingStart anchor => some (pushAnchored st anchor Event.mappingStart m)
  | YIn.mappingEnd => some (pushAnchored st none Event.mappingEnd m)

/-- `Loader::new`'s loop over the parser's events: stop at `StreamEnd`,
fail with `unknown_anchor` at the alias's own mark when an alias names an
anchor not seen earlier in the stream. -/
def loaderGo (st : LoadState) : List (YIn × Mark) → Except Err LoaderOut
  | [] => Except.error ⟨ErrKind.endOfStream, none⟩
  | (e, m) :: rest =>
    match e with
    | YIn.streamEnd => Except.ok st.out
    | _ =>
      match loadStep st e m with
      | some st' => loaderGo st' rest
      | none => Except.error (unknownAnchorErr m)

/-- `Loader::new` from the initial state. -/
def loaderNew (input : List (YIn × Mark)) : Except Err LoaderOut :=
  loaderGo loadInit input

/-- Run the loader's loop over a prefix, returning the reached state if
the prefix neither stops the loop nor fails. -/
def loaderRun (st : LoadState) : List (YIn × Mark) → Option LoadState
  | [] => some st
  | (e, m) :: rest =>
    match e with
    | YIn.streamEnd => none
    | _ =>
      match loadStep st e m with
      | some st' => loaderRun st' rest
      | none => none

/-! ## Helper lemmas -/

theorem parse_null_some_iff {v : String} : parse_null v = some () ↔ (v = "~" ∨ v = "null") := by
  unfold parse_null
  split_ifs with hc <;> simp [hc]

theorem parse_bool_some_iff {v : String} {b : Bool} :
    parse_bool v = some b ↔ ((v = "true" ∧ b = true) ∨ (v = "false" ∧ b = false)) := by
  unfold parse_bool
  split_ifs with h1 h2 <;> simp_all

/-- None of the null/boolean keywords parses as an integer in any of the
four width/sign combinations the inference tries. -/
theorem int_parsers_none_of_special {v : String}
    (h : v = "" ∨ v = "~" ∨ v = "null" ∨ v = "true" ∨ v = "false") :
    parse_unsigned_int (fromStrRadixU 64) v = none ∧
    parse_negative_int (fromStrRadixI 64) v = none ∧
    parse_unsigned_int (fromStrRadixU 128) v = none ∧
    parse_negative_int (fromStrRadixI 128) v = none := by
  rcases h with rfl | rfl | rfl | rfl | rfl <;>
    exact ⟨by decide, by decide, by decide, by decide⟩

theorem vus_of_null {pf : PF} {v : String} (h : v = "" ∨ v = "~" ∨ v = "null") :
    visit_untagged_str pf v = Visit.unit := by
  have hc : v = "" ∨ parse_null v = some () := by
    rcases h with rfl | rfl | rfl
    · exact Or.inl rfl
    · exact Or.inr (parse_null_some_iff.mpr (Or.inl rfl))
    · exact Or.inr (parse_null_some_iff.mpr (Or.inr rfl))
  unfold visit_untagged_str
  rw [if_pos hc]

theorem not_null_cond {v : String} (h1 : v ≠ "") (h2 : v ≠ "~") (h3 : v ≠ "null") :
    ¬(v = "" ∨ parse_null v = some ()) := by
  rintro (rfl | hn)
  · exact h1 rfl
  · rcases parse_null_some_iff.mp hn with rfl | rfl
    · exact h2 rfl
    · exact h3 rfl

theorem vus_of_u64 {pf : PF} {v : String} {n : Nat}
    (h : parse_unsigned_int (fromStrRadixU 64) v = some n) :
    visit_untagged_str pf v = Visit.u64 n := by
  have hne : ¬(v = "" ∨ parse_null v = some ()) := by
    refine not_null_cond ?_ ?_ ?_ <;> rintro rfl <;>
      first
        | rw [(int_parsers_none_of_special (Or.inl rfl)).1] at h; cases h
        | rw [(int_parsers_none_of_special (Or.inr (Or.inl rfl))).1] at h; cases h
        | rw [(int_parsers_none_of_special (Or.inr (Or.inr (Or.inl rfl)))).1] at h; cases h
  have hnb : parse_bool v = none := by
    cases hb : parse_bool v with
    | none => rfl
    | some b =>
      rcases parse_bool_some_iff.mp hb with ⟨rfl, _⟩ | ⟨rfl, _⟩
      · rw [(int_parsers_none_of_special (by tauto)).1] at h; cases h
      · rw [(int_parsers_none_of_special (by tauto)).1] at h; cases h
  unfold visit_untagged_str
  rw [if_neg hne]
  simp only [hnb, h]

theorem vus_of_i64 {pf : PF} {v : String} {z : Int}
    (h0 : parse_unsigned_int (fromStrRadixU 64) v = none)
    (h : parse_negative_int (fromStrRadixI 64) v = some z) :
    visit_untagged_str pf v = Visit.i64 z := by
  have hne : ¬(v = "" ∨ parse_null v = some ()) := by
    refine not_null_cond ?_ ?_ ?_ <;> rintro rfl <;>
      first
        | rw [(int_parsers_none_of_special (Or.inl rfl)).2.1] at h; cases h
        | rw [(int_parsers_none_of_special (Or.inr (Or.inl rfl))).2.1] at h; cases h
        | rw [(int_parsers_none_of_special (Or.inr (Or.inr (Or.inl rfl)))).2.1] at h; cases h
  have hnb : parse_bool v = none := by
    cases hb : parse_bool v with
    | none => rfl
    | some b =>
      rcases parse_bool_some_iff.mp hb with ⟨rfl, _⟩ | ⟨rfl, _⟩
      · rw [(int_parsers_none_of_special (by tauto)).2.1] at h; cases h
      · rw [(int_parsers_none_of_special (by tauto)).2.1] at h; cases h
  unfold visit_untagged_str
  rw [if_neg hne]
  simp only [hnb, h0, h]

theorem vus_of_u128 {pf : PF} {v : String} {n : Nat}
    (h0 : parse_unsigned_int (fromStrRadixU 64) v = none)
    (h1 : parse_negative_int (fromStrRadixI 64) v = none)
    (h : parse_unsigned_int (fromStrRadixU 128) v = some n) :
    visit_untagged_str pf v = Visit.u128 n := by
  have hne : ¬(v = "" ∨ parse_null v = some ()) := by
    refine not_null_cond ?_ ?_ ?_ <;> rintro rfl <;>
      first
        | rw [(int_parsers_none_of_special (Or.inl rfl)).2.2.1] at h; cases h
        | rw [(int_parsers_none_of_special (Or.inr (Or.inl rfl))).2.2.1] at h; cases h
        | rw [(int_parsers_none_of_special (Or.inr (Or.inr (Or.inl rfl)))).2.2.1] at h; cases h
  have hnb : parse_bool v = none := by
    cases hb : parse_bool v with
    | none => rfl
    | some b =>
      rcases parse_bool_some_iff.mp hb with ⟨rfl, _⟩ | ⟨rfl, _⟩
      · rw [(int_parsers_none_of_special (by tauto)).2.2.1] at h; cases h
      · rw [(int_parsers_none_of_special (by tauto)).2.2.1] at h; cases h
  unfold visit_untagged_str
  rw [if_neg hne]
  simp only [hnb, h0, h1, h]

theorem vus_of_i128 {pf : PF} {v : String} {z : Int}
    (h0 : parse_unsigned_int (fromStrRadixU 64) v = none)
    (h1 : parse_negative_int (fromStrRadixI 64) v = none)
    (h2 : parse_unsigned_int (fromStrRadixU 128) v = none)
    (h : parse_negative_int (fromStrRadixI 128) v = some z) :
    visit_untagged_str pf v = Visit.i128 z := by
  have hne : ¬(v = "" ∨ parse_null v = some ()) := by
    refine not_null_cond ?_ ?_ ?_ <;> rintro rfl <;>
      first
        | rw [(int_parsers_none_of_special (Or.inl rfl)).2.2.2] at h; cases h
        | rw [(int_parsers_none_of_special (Or.inr (Or.inl rfl))).2.2.2] at h; cases h
        | rw [(int_parsers_none_of_special (Or.inr (Or.inr (Or.inl rfl)))).2.2.2] at h; cases h
  have hnb : parse_bool v = none := by
    cases hb : parse_bool v with
    | none => rfl
    | some b =>
      rcases parse_bool_some_iff.mp hb with ⟨rfl, _⟩ | ⟨rfl, _⟩
      · rw [(int_parsers_none_of_special (by tauto)).2.2.2] at h; cases h
      · rw [(int_parsers_none_of_special (by tauto)).2.2.2] at h; cases h
  unfold visit_untagged_str
  rw [if_neg hne]
  simp only [hnb, h0, h1, h2, h]

theorem stripPlus_cons (c0 : Char) (t : List Char) :
    stripPlus (c0 :: t) = if c0 = '+' then t else c0 :: t := rfl

theorem stripSign_cons (c0 : Char) (t : List Char) :
    stripSign (c0 :: t) = if c0 = '-' ∨ c0 = '+' then t else c0 :: t := rfl

theorem stripRadixPre_cons2 (c c0 c1 : Char) (rest : List Char) :
    stripRadixPre c (c0 :: c1 :: rest) = if c0 = '0' ∧ c1 = c then some rest else none := rfl

/-- Shape of a "digits but not a number" scalar: after the sign strip, a
leading `0` followed by a non-empty run of ASCII digits. -/
theorem dbnn_shape {v : String} (h : digits_but_not_number v = true) :
    ∃ rest, stripSign v.data = '0' :: rest ∧ rest ≠ [] ∧
      rest.all (fun ch => ch.isDigit) = true := by
  unfold digits_but_not_number at h
  rcases hs : stripSign v.data with _ | ⟨c, rest⟩ <;> rw [hs] at h
  · cases h
  · simp only [Bool.and_eq_true, beq_iff_eq, Bool.not_eq_true', List.isEmpty_eq_false] at h
    obtain ⟨⟨rfl, hne⟩, hdig⟩ := h
    exact ⟨rest, rfl, hne, hdig⟩

theorem digit_ne_radix_letter {d : Char} (hd : d.isDigit = true) :
    d ≠ 'x' ∧ d ≠ 'o' ∧ d ≠ 'b' := by
  refine ⟨?_, ?_, ?_⟩ <;> rintro rfl <;> simp [Char.isDigit] at hd

/-- After the sign strip of a "digits but not a number" scalar, no radix
marker can follow: the character after the leading `0` is a digit. -/
theorem stripRadixPre_none_of_dbnn {v : String} {d : Char} {rest2 : List Char}
    (hs : stripSign v.data = '0' :: d :: rest2) (hd : d.isDigit = true) :
    ∀ c, c = 'x' ∨ c = 'o' ∨ c = 'b' → stripRadixPre c (stripPlus v.data) = none := by
  obtain ⟨hx, ho, hb⟩ := digit_ne_radix_letter hd
  intro c hc
  have hdc : d ≠ c := by
    rcases hc with rfl | rfl | rfl
    · exact hx
    · exact ho
    · exact hb
  rcases hv : v.data with _ | ⟨c0, t⟩ <;> rw [hv] at hs
  · cases hs
  rw [stripSign_cons] at hs
  rw [stripPlus_cons]
  by_cases hminus : c0 = '-'
  · rw [if_pos (Or.inl hminus)] at hs
    subst hs
    rw [if_neg (by rw [hminus]; decide)]
    rw [stripRadixPre_cons2, if_neg]
    rintro ⟨h0, -⟩
    rw [hminus] at h0
    cases h0
  · by_cases hplus : c0 = '+'
    · rw [if_pos (Or.inr hplus)] at hs
      subst hs
      rw [if_pos hplus]
      rw [stripRadixPre_cons2, if_neg]
      rintro ⟨-, hdceq⟩
      exact hdc hdceq
    · rw [if_neg (by rintro (hq | hq); exact hminus hq; exact hplus hq)] at hs
      rw [if_neg hplus]
      injection hs with hs0 hs1
      subst hs0
      subst hs1
      rw [stripRadixPre_cons2, if_neg]
      rintro ⟨-, hdceq⟩
      exact hdc hdceq

/-- A "digits but not a number" scalar carries no radix marker after its
sign, so `parse_unsigned_int` rejects it outright. -/
theorem parse_unsigned_int_none_of_dbnn {α : Type} (f : List Char → Nat → Option α)
    {v : String} (h : digits_but_not_number v = true) :
    parse_unsigned_int f v = none := by
  obtain ⟨rest, hs, hne, hdig⟩ := dbnn_shape h
  unfold parse_unsigned_int
  rcases rest with _ | ⟨d, rest2⟩
  · exact absurd rfl hne
  have hd : d.isDigit = true := by
    simp only [List.all_cons, Bool.and_eq_true] at hdig
    exact hdig.1
  have hpre := stripRadixPre_none_of_dbnn hs hd
  simp only [hpre 'x' (Or.inl rfl), hpre 'o' (Or.inr (Or.inl rfl)),
    hpre 'b' (Or.inr (Or.inr rfl)), Option.none_bind, h, if_true]

/-- Likewise for `parse_negative_int`. -/
theorem parse_negative_int_none_of_dbnn {α : Type} (f : List Char → Nat → Option α)
    {v : String} (h : digits_but_not_number v = true) :
    parse_negative_int f v = none := by
  obtain ⟨rest, hs, hne, hdig⟩ := dbnn_shape h
  unfold parse_negative_int
  rcases rest with _ | ⟨d, rest2⟩
  · exact absurd rfl hne
  have hd : d.isDigit = true := by
    simp only [List.all_cons, Bool.and_eq_true] at hdig
    exact hdig.1
  obtain ⟨hx, ho, hb⟩ := digit_ne_radix_letter hd
  have htry : ∀ c radix, c = 'x' ∨ c = 'o' ∨ c = 'b' →
      (match v.data with
        | c0 :: r =>
          if c0 = '-' then (stripRadixPre c r).bind (fun digits => f ('-' :: digits) radix)
          else none
        | [] => none) = (none : Option α) := by
    intro c radix hc
    have hdc : d ≠ c := by
      rcases hc with rfl | rfl | rfl
      · exact hx
      · exact ho
      · exact hb
    rcases hv : v.data with _ | ⟨c0, t⟩ <;> rw [hv] at hs
    rw [stripSign_cons] at hs
    simp only
    by_cases hminus : c0 = '-'
    · rw [if_pos hminus]
      rw [if_pos (Or.inl hminus)] at hs
      subst hs
      rw [stripRadixPre_cons2, if_neg]
      · rfl
      · rintro ⟨-, hdceq⟩
        exact hdc hdceq
    · rw [if_neg hminus]
  simp only [htry 'x' 16 (Or.inl rfl), htry 'o' 8 (Or.inr (Or.inl rfl)),
    htry 'b' 2 (Or.inr (Or.inr rfl)), h, if_true]

/-- A leading-zero digit run decodes as a plain string. -/
theorem vus_of_dbnn {pf : PF} {v : String} (h : digits_but_not_number v = true) :
    visit_untagged_str pf v = Visit.str v := by
  have hne : ¬(v = "" ∨ parse_null v = some ()) := by
    refine not_null_cond ?_ ?_ ?_ <;> rintro rfl <;> cases h
  have hnb : parse_bool v = none := by
    cases hb : parse_bool v with
    | none => rfl
    | some b =>
      rcases parse_bool_some_iff.mp hb with ⟨rfl, _⟩ | ⟨rfl, _⟩ <;> cases h
  unfold visit_untagged_str
  rw [if_neg hne]
  simp only [hnb, parse_unsigned_int_none_of_dbnn _ h, parse_negative_int_none_of_dbnn _ h,
    h, if_true]

/-- The float-literal and fallback steps, reached when every earlier step
has declined the text. -/
theorem vus_float_fallback {pf : PF} {v : String}
    (hne : v ≠ "") (hnn : parse_null v = none) (hnb : parse_bool v = none)
    (h1 : parse_unsigned_int (fromStrRadixU 64) v = none)
    (h2 : parse_negative_int (fromStrRadixI 64) v = none)
    (h3 : parse_unsigned_int (fromStrRadixU 128) v = none)
    (h4 : parse_negative_int (fromStrRadixI 128) v = none)
    (h5 : digits_but_not_number v = false)
    (h6 : isPosInfLit v = false) (h7 : isNegInfLit v = false) (h8 : isNanLit v = false) :
    ((∀ x, pf v = some x → x.isFinite = true → visit_untagged_str pf v = Visit.f64 x) ∧
      ((∀ x, pf v = some x → x.isFinite = false) → visit_untagged_str pf v = Visit.str v)) := by
  have hcond : ¬(v = "" ∨ parse_null v = some ()) := by
    rintro (rfl | hn)
    · exact hne rfl
    · rw [hnn] at hn; cases hn
  constructor
  · intro x hx hfin
    unfold visit_untagged_str
    rw [if_neg hcond]
    simp only [hnb, h1, h2, h3, h4, h5, h6, h7, h8, hx, hfin, Bool.false_eq_true, if_false,
      if_true]
  · intro hx
    unfold visit_untagged_str
    rw [if_neg hcond]
    simp only [hnb, h1, h2, h3, h4, h5, h6, h7, h8, Bool.false_eq_true, if_false]
    cases hpv : pf v with
    | none => rfl
    | some x =>
      simp only [hx x hpv, Bool.false_eq_true, if_false]

/--
C1: on the generic untagged path, plain-scalar inference applies a fixed
priority order with first match winning — empty/`~`/`null` is null;
exactly `true`/`false` is a boolean; integers (with optional `+` and
`0x`/`0o`/`0b` radix markers) are tried as u64, then i64, then u128, then
i128, widening only when the narrower parse fails, except that a leading
zero followed by decimal digits is not a number; then the `.inf`/`-.inf`
and `.nan` families; then any text parsing as a finite double; anything
else stays a string.  In particular `"0123"` is the string `"0123"`,
`"0x1A"` is the integer 26, and 2^64 still decodes as a number via 128-bit
widening.
-/
theorem claim_C1_untagged_inference (pf : PF) :
    (∀ v, visit_untagged_str pf v = Visit.unit ↔ (v = "" ∨ v = "~" ∨ v = "null")) ∧
    (∀ v b, visit_untagged_str pf v = Visit.bool b ↔
      ((v = "true" ∧ b = true) ∨ (v = "false" ∧ b = false))) ∧
    (∀ v n, parse_unsigned_int (fromStrRadixU 64) v = some n →
      visit_untagged_str pf v = Visit.u64 n) ∧
    (∀ v z, parse_unsigned_int (fromStrRadixU 64) v = none →
      parse_negative_int (fromStrRadixI 64) v = some z →
      visit_untagged_str pf v = Visit.i64 z) ∧
    (∀ v n, parse_unsigned_int (fromStrRadixU 64) v = none →
      parse_negative_int (fromStrRadixI 64) v = none →
      parse_unsigned_int (fromStrRadixU 128) v = some n →
      visit_untagged_str pf v = Visit.u128 n) ∧
    (∀ v z, parse_unsigned_int (fromStrRadixU 64) v = none →
      parse_negative_int (fromStrRadixI 64) v = none →
      parse_unsigned_int (fromStrRadixU 128) v = none →
      parse_negative_int (fromStrRadixI 128) v = some z →
      visit_untagged_str pf v = Visit.i128 z) ∧
    (∀ v, digits_but_not_number v = true → visit_untagged_str pf v = Visit.str v) ∧
    (visit_untagged_str pf ".inf" = Visit.f64 F64.inf ∧
      visit_untagged_str pf ".Inf" = Visit.f64 F64.inf ∧
      visit_untagged_str pf ".INF" = Visit.f64 F64.inf ∧
      visit_untagged_str pf "+.inf" = Visit.f64 F64.inf ∧
      visit_untagged_str pf "+.Inf" = Visit.f64 F64.inf ∧
      visit_untagged_str pf "+.INF" = Visit.f64 F64.inf ∧
      visit_untagged_str pf "-.inf" = Visit.f64 F64.negInf ∧
      visit_untagged_str pf "-.Inf" = Visit.f64 F64.negInf ∧
      visit_untagged_str pf "-.INF" = Visit.f64 F64.negInf ∧
      visit_untagged_str pf ".nan" = Visit.f64 F64.nan ∧
      visit_untagged_str pf ".NaN" = Visit.f64 F64.nan ∧
      visit_untagged_str pf ".NAN" = Visit.f64 F64.nan) ∧
    (∀ v, v ≠ "" → parse_null v = none → parse_bool v = none →
      parse_unsigned_int (fromStrRadixU 64) v = none →
      parse_negative_int (fromStrRadixI 64) v = none →
      parse_unsigned_int (fromStrRadixU 128) v = none →
      parse_negative_int (fromStrRadixI 128) v = none →
      digits_but_not_number v = false →
      isPosInfLit v = false → isNegInfLit v = false → isNanLit v = false →
      ((∀ x, pf v = some x → x.isFinite = true → visit_untagged_str pf v = Visit.f64 x) ∧
        ((∀ x, pf v = some x → x.isFinite = false) → visit_untagged_str pf v = Visit.str v))) ∧
    (visit_untagged_str pf "0123" = Visit.str "0123" ∧
      visit_untagged_str pf "0x1A" = Visit.u64 26 ∧
      visit_untagged_str pf "0o17" = Visit.u64 15 ∧
      visit_untagged_str pf "0b101" = Visit.u64 5 ∧
      visit_untagged_str pf "+12" = Visit.u64 12 ∧
      visit_untagged_str pf "-5" = Visit.i64 (-5) ∧
      visit_untagged_str pf "18446744073709551616" = Visit.u128 18446744073709551616) := by
  refine ⟨?_, ?_, ?_, ?_, ?_, ?_, ?_, ?_, ?_, ?_⟩
  · intro v
    constructor
    · intro h
      by_cases hc : v = "" ∨ parse_null v = some ()
      · rcases hc with rfl | hn
        · exact Or.inl rfl
        · exact Or.inr (parse_null_some_iff.mp hn)
      · exfalso
        unfold visit_untagged_str at h
        rw [if_neg hc] at h
        repeat' split at h
        all_goals simp_all
    · exact vus_of_null
  · intro v b
    constructor
    · intro h
      by_cases hc : v = "" ∨ parse_null v = some ()
      · rw [vus_of_null (by
          rcases hc with rfl | hn
          · exact Or.inl rfl
          · exact Or.inr (parse_null_some_iff.mp hn))] at h
        cases h
      · unfold visit_untagged_str at h
        rw [if_neg hc] at h
        cases hb : parse_bool v with
        | some b' =>
          rw [hb] at h
          cases h
          exact parse_bool_some_iff.mp hb
        | none =>
          exfalso
          rw [hb] at h
          repeat' split at h
          all_goals simp_all
    · rintro (⟨rfl, rfl⟩ | ⟨rfl, rfl⟩) <;> rfl
  · intro v n h
    exact vus_of_u64 h
  · intro v z h0 h
    exact vus_of_i64 h0 h
  · intro v n h0 h1 h
    exact vus_of_u128 h0 h1 h
  · intro v z h0 h1 h2 h
    exact vus_of_i128 h0 h1 h2 h
  · intro v h
    exact vus_of_dbnn h
  · exact ⟨rfl, rfl, rfl, rfl, rfl, rfl, rfl, rfl, rfl, rfl, rfl, rfl⟩
  · intro v hne hnn hnb h1 h2 h3 h4 h5 h6 h7 h8
    exact vus_float_fallback hne hnn hnb h1 h2 h3 h4 h5 h6 h7 h8
  · exact ⟨rfl, rfl, rfl, rfl, rfl, rfl, rfl⟩

theorem fixMarkE_ok_iff {α : Type} {r : Except Err α} {m : Mark} {v : α} :
    fixMarkE r m = Except.ok v ↔ r = Except.ok v := by
  cases r <;> simp [fixMarkE, fixMark]

/--
C2: an alias whose anchor is in the document's alias index deserializes —
under every modelled target shape — to exactly the value obtained by
deserializing the anchor's node directly at its own position with the
same remaining budget: the jump rebases a fresh cursor to the anchor
position and recurses, and the main cursor only steps past the alias
event, so each expansion decodes a fresh copy with no caching.
-/
theorem claim_C2_alias_transparent (doc : Document) (pf : PF) (fuel : Nat) (s : DeState)
    (id : Nat) (m : Mark) (t : Nat)
    (hev : doc.events[s.pos]? = some (Event.alias id, m))
    (hal : doc.aliases.lookup id = some t) :
    ((∀ v, (anyValue doc pf (fuel + 1) s).1 = Except.ok v ↔
        (anyValue doc pf fuel ⟨t, s.depth⟩).1 = Except.ok v) ∧
      (anyValue doc pf (fuel + 1) s).2 = ⟨s.pos + 1, s.depth⟩) ∧
    ((∀ b, (de_bool doc pf (fuel + 1) s).1 = Except.ok b ↔
        (de_bool doc pf fuel ⟨t, s.depth⟩).1 = Except.ok b) ∧
      (de_bool doc pf (fuel + 1) s).2 = ⟨s.pos + 1, s.depth⟩) ∧
    ((∀ v, (de_str doc pf (fuel + 1) s).1 = Except.ok v ↔
        (de_str doc pf fuel ⟨t, s.depth⟩).1 = Except.ok v) ∧
      (de_str doc pf (fuel + 1) s).2 = ⟨s.pos + 1, s.depth⟩) ∧
    ((∀ n, (de_u64 doc pf (fuel + 1) s).1 = Except.ok n ↔
        (de_u64 doc pf fuel ⟨t, s.depth⟩).1 = Except.ok n) ∧
      (de_u64 doc pf (fuel + 1) s).2 = ⟨s.pos + 1, s.depth⟩) ∧
    (∀ k, (de_tuple doc pf k (fuel + 1) s).1 =
        fixMarkE (de_tuple doc pf k fuel ⟨t, s.depth⟩).1 m ∧
      (de_tuple doc pf k (fuel + 1) s).2 = ⟨s.pos + 1, s.depth⟩) ∧
    (∀ ename variants, (de_enum doc pf ename variants (fuel + 1) s).1 =
        (de_enum doc pf ename variants fuel ⟨t, s.depth⟩).1 ∧
      (de_enum doc pf ename variants (fuel + 1) s).2 = ⟨s.pos + 1, s.depth⟩) ∧
    (∀ (α : Type) (k : Nat → DeState → Res (Option α)),
      (de_option doc k (fuel + 1) s).1 = (de_option doc k fuel ⟨t, s.depth⟩).1 ∧
      (de_option doc k (fuel + 1) s).2 = ⟨s.pos + 1, s.depth⟩) := by
  have hpk : peek doc s = Except.ok (Event.alias id, m) := by simp [peek, hev]
  refine ⟨⟨fun v => ?_, ?_⟩, ⟨fun b => ?_, ?_⟩, ⟨fun v => ?_, ?_⟩, ⟨fun n => ?_, ?_⟩,
      fun k => ⟨?_, ?_⟩, fun ename variants => ⟨?_, ?_⟩, fun α k => ⟨?_, ?_⟩⟩ <;>
    simp only [anyValue, de_bool, de_str, de_u64, de_tuple, de_enum, de_option, hpk, hal]
  · exact fixMarkE_ok_iff
  · exact fixMarkE_ok_iff
  · exact fixMarkE_ok_iff
  · exact fixMarkE_ok_iff

/-- A document whose root is an alias to an anchored scalar `7`. -/
def exAliasDoc : Document :=
  ⟨[(Event.alias 0, ⟨9, 9, 9⟩), (Event.scalar ⟨"7", ScalarStyle.plain, none⟩, ⟨1, 1, 1⟩)],
    [(0, 1)], none⟩

/-- Witness for C2: an alias to an anchored scalar decodes to the same
value as the anchor's node itself. -/
theorem claim_C2_witness :
    (anyValue exAliasDoc pfNone 6 ⟨0, 128⟩).1 = Except.ok (YVal.u64 7) :=
  (((claim_C2_alias_transparent exAliasDoc pfNone 5 ⟨0, 128⟩ 0 ⟨9, 9, 9⟩ 1 rfl rfl).1.1
    (YVal.u64 7)).mpr rfl)

/-! ## Nested-sequence documents (recursion-limit claims) -/

/-- A distinct mark per event index. -/
def mkMark (i : Nat) : Mark := ⟨i, i, i⟩

/-- The document `[[[…]]]` with `n` levels of sequence nesting. -/
def nestedSeqDoc (n : Nat) : Document :=
  ⟨(List.range n).map (fun i => (Event.sequenceStart, mkMark i)) ++
      (List.range n).map (fun i => (Event.sequenceEnd, mkMark (n + i))), [], none⟩

theorem nestedSeqDoc_events_lt {n i : Nat} (h : i < n) :
    (nestedSeqDoc n).events[i]? = some (Event.sequenceStart, mkMark i) := by
  unfold nestedSeqDoc
  simp only
  rw [List.getElem?_append_left (by simpa using h), List.getElem?_map,
    List.getElem?_range h]
  rfl

/-- Descending into the nested document with insufficient budget fails
with `recursion_limit_exceeded` at the mark of the node where the budget
reaches zero. -/
theorem nestedSeqDoc_recursion_err {n : Nat} (pf : PF) :
    ∀ (d i fuel : Nat), i + d < n → 2 * d + 1 ≤ fuel →
      (anyValue (nestedSeqDoc n) pf fuel ⟨i, d⟩).1 =
        Except.error (recLimitErr (mkMark (i + d))) := by
  intro d
  induction d with
  | zero =>
    intro i fuel hin hfuel
    obtain ⟨f, rfl⟩ : ∃ f, fuel = f + 1 := ⟨fuel - 1, by omega⟩
    have hpk : peek (nestedSeqDoc n) ⟨i, 0⟩ = Except.ok (Event.sequenceStart, mkMark i) := by
      simp [peek, nestedSeqDoc_events_lt (by omega : i < n)]
    simp [anyValue, hpk, recursion_check, fixMarkE, fixMark, recLimitErr]
  | succ d ih =>
    intro i fuel hin hfuel
    obtain ⟨f, rfl⟩ : ∃ f, fuel = f + 1 := ⟨fuel - 1, by omega⟩
    obtain ⟨f', rfl⟩ : ∃ f', f = f' + 1 := ⟨f - 1, by omega⟩
    have hpk : peek (nestedSeqDoc n) ⟨i, d + 1⟩ =
        Except.ok (Event.sequenceStart, mkMark i) := by
      simp [peek, nestedSeqDoc_events_lt (by omega : i < n)]
    have hpk2 : peek (nestedSeqDoc n) ⟨i + 1, d⟩ =
        Except.ok (Event.sequenceStart, mkMark (i + 1)) := by
      simp [peek, nestedSeqDoc_events_lt (by omega : i + 1 < n)]
    have helem := ih (i + 1) f' (by omega) (by omega)
    have harith : i + 1 + d = i + (d + 1) := by omega
    rw [harith] at helem
    simp only [anyValue, hpk, recursion_check, anySeqItems, hpk2]
    cases hres : anyValue (nestedSeqDoc n) pf f' ⟨i + 1, d⟩ with
    | mk r s' =>
      have hr : r = Except.error (recLimitErr (mkMark (i + (d + 1)))) := by
        have hfst := congrArg Prod.fst hres
        simp only at hfst
        rw [← hfst]
        exact helem
      subst hr
      simp [fixMarkE, fixMark, recLimitErr]

/--
C3: a document whose container nesting exceeds the fixed initial budget
of 128 — for example 130 nested sequences — deserializes to a
`recursion_limit_exceeded` error whose source position is that of the
nested node at which the budget ran out (event index 128), not the
document's top-level position, instead of recursing unboundedly.
-/
theorem claim_C3_recursion_limit (pf : PF) (n fuel : Nat) (hn : 128 < n) (hfuel : 257 ≤ fuel) :
    (deAnyDocument (nestedSeqDoc n) pf fuel).1 =
      Except.error ⟨ErrKind.recursionLimitExceeded, some (mkMark 128)⟩ ∧
    (nestedSeqDoc n).events[128]? = some (Event.sequenceStart, mkMark 128) ∧
    mkMark 128 ≠ mkMark 0 := by
  refine ⟨?_, nestedSeqDoc_events_lt hn, by decide⟩
  have herr := nestedSeqDoc_recursion_err (n := n) pf 128 0 fuel (by omega) (by omega)
  simpa [deAnyDocument, recLimitErr] using herr

/-- Witness for C3: the 130-level document against the budget of 128. -/
theorem claim_C3_witness :
    (deAnyDocument (nestedSeqDoc 130) pfNone 257).1 =
      Except.error ⟨ErrKind.recursionLimitExceeded, some (mkMark 128)⟩ :=
  (claim_C3_recursion_limit pfNone 130 257 (by decide) (by decide)).1

/-! ## The recursion budget: copy on descent, restore on return -/

theorem endSeqDrain_depth (doc : Document) :
    ∀ fuel s len total, ((endSeqDrain doc fuel s len total).2).depth = s.depth := by
  intro fuel
  induction fuel with
  | zero => intro s len total; rfl
  | succ f ih =>
    intro s len total
    simp only [endSeqDrain]
    repeat' split
    all_goals first
      | rfl
      | exact ih _ _ _

theorem endMapDrain_depth (doc : Document) :
    ∀ fuel s len total, ((endMapDrain doc fuel s len total).2).depth = s.depth := by
  intro fuel
  induction fuel with
  | zero => intro s len total; rfl
  | succ f ih =>
    intro s len total
    simp only [endMapDrain]
    repeat' split
    all_goals first
      | rfl
      | exact ih _ _ _

/-- The final state of any call in the `deserialize_any` family carries
the caller's budget unchanged: descents only ever see a decremented copy,
and `recursion_check` restores its own value on both success and error. -/
theorem anyFamily_depth (doc : Document) (pf : PF) :
    ∀ fuel,
      (∀ s, ((anyValue doc pf fuel s).2).depth = s.depth) ∧
      (∀ s len acc, ((anySeqItems doc pf fuel s len acc).2).depth = s.depth) ∧
      (∀ s len acc, ((anyMapItems doc pf fuel s len acc).2).depth = s.depth) := by
  intro fuel
  induction fuel with
  | zero => exact ⟨fun s => rfl, fun s len acc => rfl, fun s len acc => rfl⟩
  | succ f ih =>
    obtain ⟨ihAny, ihSeq, ihMap⟩ := ih
    refine ⟨fun s => ?_, fun s len acc => ?_, fun s len acc => ?_⟩
    · simp only [anyValue, recursion_check]
      repeat' split
      all_goals first
        | rfl
        | omega
        | simp_all [end_sequence, end_mapping, endSeqDrain_depth, endMapDrain_depth]
    · simp only [anySeqItems]
      repeat' split
      all_goals first
        | rfl
        | exact ihSeq _ _ _
    · simp only [anyMapItems]
      repeat' split
      all_goals first
        | rfl
        | exact ihMap _ _ _
        | (rw [ihMap]; exact ihAny _)
        | simp [ihMap, ihAny]

/-- A document whose root alias points at an (empty) anchored sequence. -/
def aliasSeqDoc : Document :=
  ⟨[(Event.alias 0, ⟨9, 9, 9⟩), (Event.sequenceStart, mkMark 0), (Event.sequenceEnd, mkMark 1)],
    [(0, 1)], none⟩

/--
C4 counterexample: the claim says an alias jump, like a container, makes
a budget decremented by one visible inside the nested call.  In fact the
jump copies the budget unchanged: decoding the alias with budget 1
succeeds (the jumped-to sequence still sees budget 1), while decoding the
anchor's node directly with budget 0 — what the nested call would see had
the jump decremented — fails with the recursion-limit error.
-/
theorem claim_C4_counterexample :
    (anyValue aliasSeqDoc pfNone 9 ⟨0, 1⟩).1 = Except.ok (YVal.seq []) ∧
    (anyValue aliasSeqDoc pfNone 8 ⟨1, 0⟩).1 =
      Except.error ⟨ErrKind.recursionLimitExceeded, some (mkMark 0)⟩ :=
  ⟨rfl, rfl⟩

/--
C4 (amended): entering a sequence or a mapping makes a recursion budget
decremented by one visible only inside the nested call, while an alias
jump passes the budget through unchanged; and after every such call —
whether it succeeded or failed — the caller's remaining budget equals its
value from before the call, because the budget is copied by value into
each nested deserializer and restored by `recursion_check`.
-/
theorem claim_C4_budget_copy_restore (doc : Document) (pf : PF) :
    (∀ fuel s, ((anyValue doc pf fuel s).2).depth = s.depth) ∧
    (∀ fuel s m, s.depth = 0 → doc.events[s.pos]? = some (Event.sequenceStart, m) →
      anyValue doc pf (fuel + 1) s =
        (Except.error ⟨ErrKind.recursionLimitExceeded, some m⟩, ⟨s.pos + 1, s.depth⟩)) ∧
    (∀ fuel s m, s.depth = 0 → doc.events[s.pos]? = some (Event.mappingStart, m) →
      anyValue doc pf (fuel + 1) s =
        (Except.error ⟨ErrKind.recursionLimitExceeded, some m⟩, ⟨s.pos + 1, s.depth⟩)) ∧
    ((anyValue (nestedSeqDoc 3) pfNone 20 ⟨0, 3⟩).1 =
        Except.ok (YVal.seq [YVal.seq [YVal.seq []]]) ∧
      (anyValue (nestedSeqDoc 3) pfNone 20 ⟨0, 2⟩).1 =
        Except.error ⟨ErrKind.recursionLimitExceeded, some (mkMark 2)⟩) ∧
    (∀ fuel s id m t, doc.events[s.pos]? = some (Event.alias id, m) →
      doc.aliases.lookup id = some t →
      anyValue doc pf (fuel + 1) s =
        (fixMarkE (anyValue doc pf fuel ⟨t, s.depth⟩).1 m, ⟨s.pos + 1, s.depth⟩)) := by
  refine ⟨fun fuel s => (anyFamily_depth doc pf fuel).1 s, ?_, ?_, ⟨rfl, rfl⟩, ?_⟩
  · intro fuel s m hd hev
    have hpk : peek doc s = Except.ok (Event.sequenceStart, m) := by simp [peek, hev]
    simp [anyValue, hpk, recursion_check, hd, fixMarkE, fixMark, recLimitErr]
  · intro fuel s m hd hev
    have hpk : peek doc s = Except.ok (Event.mappingStart, m) := by simp [peek, hev]
    simp [anyValue, hpk, recursion_check, hd, fixMarkE, fixMark, recLimitErr]
  · intro fuel s id m t hev hal
    have hpk : peek doc s = Except.ok (Event.alias id, m) := by simp [peek, hev]
    simp only [anyValue, hpk, hal]

/-- Witness for C4: the amended theorem applied to the alias document. -/
theorem claim_C4_witness :
    anyValue exAliasDoc pfNone 6 ⟨0, 128⟩ =
      (fixMarkE (anyValue exAliasDoc pfNone 5 ⟨1, 128⟩).1 ⟨9, 9, 9⟩, ⟨1, 128⟩) :=
  (claim_C4_budget_copy_restore exAliasDoc pfNone).2.2.2.2 5 ⟨0, 128⟩ 0 ⟨9, 9, 9⟩ 1 rfl rfl

/-! ## Option decoding -/

/-- A single plain untagged scalar document. -/
def plainScalarDoc (v : String) : Document :=
  ⟨[(Event.scalar ⟨v, ScalarStyle.plain, none⟩, mkMark 0)], [], none⟩

/-- A single single-quoted untagged scalar document. -/
def sqScalarDoc (v : String) : Document :=
  ⟨[(Event.scalar ⟨v, ScalarStyle.singleQuoted, none⟩, mkMark 0)], [], none⟩

/--
C5 counterexample: the claim says `deserialize_option` yields `None`
exactly for plain scalars whose text is `~` or `null`; but an untagged
plain scalar with empty text also yields `None`, and `""` is neither `~`
nor `null`.
-/
theorem claim_C5_counterexample :
    de_option_bool (plainScalarDoc "") pfNone 9 ⟨0, 128⟩ = (Except.ok none, ⟨1, 128⟩) ∧
    ("" : String) ≠ "~" ∧ ("" : String) ≠ "null" :=
  ⟨rfl, by decide, by decide⟩

/--
C5 (amended): `deserialize_option` yields `None` exactly when the value
is a plain scalar that is untagged with text `~`, `null`, or empty, or
`!!null`-tagged with text `~` or `null`.  Any other scalar — including a
non-plain-styled scalar whatever its text — and any sequence or mapping
is `Some` (the target type's deserialization runs on the unconsumed
value); a `!!null`-tagged plain scalar with other text is a value error.
In particular `Option<bool>` maps a plain `~` to `None`, while a
single-quoted `~` attempts boolean parsing and fails with a type error.
-/
theorem claim_C5_option_none (doc : Document) {α : Type}
    (k : Nat → DeState → Res (Option α)) (fuel : Nat) (s : DeState) :
    (∀ sc m, doc.events[s.pos]? = some (Event.scalar sc, m) →
      ((sc.style = ScalarStyle.plain →
          ((sc.tag = none ∧ (sc.value = "" ∨ sc.value = "~" ∨ sc.value = "null")) ∨
            (sc.tag = some tagNULL ∧ (sc.value = "~" ∨ sc.value = "null"))) →
          de_option doc k (fuel + 1) s = (Except.ok none, ⟨s.pos + 1, s.depth⟩)) ∧
        (sc.style ≠ ScalarStyle.plain → de_option doc k (fuel + 1) s = k fuel s) ∧
        (sc.style = ScalarStyle.plain → sc.tag = none →
          sc.value ≠ "" → sc.value ≠ "~" → sc.value ≠ "null" →
          de_option doc k (fuel + 1) s = k fuel s) ∧
        (sc.style = ScalarStyle.plain → ∀ tg, sc.tag = some tg → tg ≠ tagNULL →
          de_option doc k (fuel + 1) s = k fuel s) ∧
        (sc.style = ScalarStyle.plain → sc.tag = some tagNULL →
          sc.value ≠ "~" → sc.value ≠ "null" →
          de_option doc k (fuel + 1) s =
            (Except.error (msgErr (Msg.invalidValue (Unexp.str sc.value) (Exp.desc "null"))),
              s)))) ∧
    (∀ m, doc.events[s.pos]? = some (Event.sequenceStart, m) →
      de_option doc k (fuel + 1) s = k fuel s) ∧
    (∀ m, doc.events[s.pos]? = some (Event.mappingStart, m) →
      de_option doc k (fuel + 1) s = k fuel s) ∧
    (de_option_bool (plainScalarDoc "~") pfNone 9 ⟨0, 128⟩ = (Except.ok none, ⟨1, 128⟩) ∧
      (de_option_bool (sqScalarDoc "~") pfNone 9 ⟨0, 128⟩).1 =
        Except.error
          ⟨ErrKind.message (Msg.invalidType (Unexp.str "~") (Exp.desc "a boolean")),
            some (mkMark 0)⟩) := by
  refine ⟨fun sc m hev => ?_, fun m hev => ?_, fun m hev => ?_, rfl, rfl⟩
  · have hpk : peek doc s = Except.ok (Event.scalar sc, m) := by simp [peek, hev]
    refine ⟨fun hst hnull => ?_, fun hst => ?_, fun hst htag h1 h2 h3 => ?_,
      fun hst tg htag htg => ?_, fun hst htag h2 h3 => ?_⟩
    · simp only [de_option, hpk]
      rw [if_neg (by simp [hst])]
      rcases hnull with ⟨htag, hv⟩ | ⟨htag, hv⟩
      · rw [htag]
        rw [if_neg]
        rcases hv with hv | hv | hv <;> rw [hv] <;> simp [parse_null]
      · rw [htag]
        dsimp only
        rw [if_pos rfl]
        rcases hv with hv | hv <;> rw [hv] <;> rfl
    · simp only [de_option, hpk]
      rw [if_pos hst]
    · simp only [de_option, hpk]
      rw [if_neg (by simp [hst]), htag]
      dsimp only
      rw [if_pos ⟨h1, by simp [parse_null, h2, h3]⟩]
    · simp only [de_option, hpk]
      rw [if_neg (by simp [hst]), htag]
      dsimp only
      rw [if_neg htg]
    · simp only [de_option, hpk]
      rw [if_neg (by simp [hst]), htag]
      dsimp only
      rw [if_pos rfl]
      simp [parse_null, h2, h3]
  · have hpk : peek doc s = Except.ok (Event.sequenceStart, m) := by simp [peek, hev]
    simp only [de_option, hpk]
  · have hpk : peek doc s = Except.ok (Event.mappingStart, m) := by simp [peek, hev]
    simp only [de_option, hpk]

/-- Witness for C5: a plain `~` scalar decoded as an option through the
theorem itself. -/
theorem claim_C5_witness :
    de_option (plainScalarDoc "~")
        (fun f st =>
          let (r, s') := de_bool (plainScalarDoc "~") pfNone f st
          (r.map some, s'))
        9 ⟨0, 128⟩ = (Except.ok none, ⟨1, 128⟩) :=
  ((claim_C5_option_none (plainScalarDoc "~") _ 8 ⟨0, 128⟩).1
    ⟨"~", ScalarStyle.plain, none⟩ (mkMark 0) rfl).1 rfl (Or.inl ⟨rfl, Or.inr (Or.inl rfl)⟩)

/-! ## Unknown anchors in the loader -/

theorem loaderRun_append :
    ∀ (pre : List (YIn × Mark)) (st st' : LoadState) (suf : List (YIn × Mark)),
      loaderRun st pre = some st' → loaderGo st (pre ++ suf) = loaderGo st' suf := by
  intro pre
  induction pre with
  | nil =>
    intro st st' suf h
    cases h
    rfl
  | cons em pre ih =>
    intro st st' suf h
    obtain ⟨e, m⟩ := em
    cases e <;>
      simp only [loaderRun, loadStep, List.cons_append, loaderGo] at h ⊢ <;>
      first
        | cases h
        | exact ih _ _ _ h
        | (cases hl : (st.anchors.lookup _) <;> rw [hl] at h <;> dsimp only at h ⊢ <;>
            first
              | cases h
              | exact ih _ _ _ h)

/-- A two-document stream: document one anchors a scalar as `a`,
document two references `*a`. -/
def crossDocEx : List (YIn × Mark) :=
  [(YIn.streamStart, mkMark 0), (YIn.documentStart, mkMark 1),
    (YIn.scalar (some "a") ⟨"x", ScalarStyle.plain, none⟩, mkMark 2),
    (YIn.documentEnd, mkMark 3), (YIn.documentStart, mkMark 4),
    (YIn.alias "a", mkMark 5), (YIn.documentEnd, mkMark 6), (YIn.streamEnd, mkMark 7)]

/-- The loader output for `crossDocEx`: the cross-document alias resolves. -/
def crossDocOut : LoaderOut :=
  ⟨[(Event.scalar ⟨"x", ScalarStyle.plain, none⟩, mkMark 2), (Event.alias 0, mkMark 5)],
    [(0, 0)], [(0, 1), (1, 1)]⟩

/--
C6 counterexample: the claim says an alias whose anchor was defined only
in an earlier document of the same stream fails with "unknown anchor".
In fact the loader's anchor map is never cleared between documents, so
loading the two-document stream succeeds, resolving the second document's
alias to the first document's anchor.
-/
theorem claim_C6_counterexample :
    loaderNew crossDocEx = Except.ok crossDocOut ∧
    ∀ err, loaderNew crossDocEx ≠ Except.error err := by
  refine ⟨rfl, fun err h => ?_⟩
  rw [show loaderNew crossDocEx = Except.ok crossDocOut from rfl] at h
  cases h

/--
C6 (amended): an alias event whose anchor name has not been registered
earlier in the *stream* — a forward reference within a document being the
typical case — makes loading fail with an "unknown anchor" error carrying
the source position of the alias occurrence itself, whatever the marks of
any anchor definitions are; but the anchor map persists across documents,
so an anchor from an earlier document of the same stream resolves instead
of failing (see the counterexample for the concrete stream).
-/
theorem claim_C6_unknown_anchor (pre : List (YIn × Mark)) (st' : LoadState) (a : String)
    (m : Mark) (rest : List (YIn × Mark))
    (hrun : loaderRun loadInit pre = some st')
    (hanchor : st'.anchors.lookup a = none) :
    loaderGo loadInit (pre ++ (YIn.alias a, m) :: rest) =
      Except.error ⟨ErrKind.unknownAnchor, some m⟩ := by
  rw [loaderRun_append pre loadInit st' _ hrun]
  simp only [loaderGo, loadStep, hanchor]
  rfl

/-- Witness for C6: a forward reference at the head of a document. -/
theorem claim_C6_witness :
    loaderGo loadInit
        ([(YIn.documentStart, mkMark 1)] ++ (YIn.alias "a", mkMark 2) ::
          [(YIn.streamEnd, mkMark 3)]) =
      Except.error ⟨ErrKind.unknownAnchor, some (mkMark 2)⟩ :=
  claim_C6_unknown_anchor [(YIn.documentStart, mkMark 1)] ⟨⟨[], [], []⟩, [], 0⟩ "a"
    (mkMark 2) [(YIn.streamEnd, mkMark 3)] rfl rfl

/-! ## Tuples and enums on concrete documents -/

/-- The document `[1, 2, 3]`. -/
def seq123Doc : Document :=
  ⟨[(Event.sequenceStart, mkMark 0),
      (Event.scalar ⟨"1", ScalarStyle.plain, none⟩, mkMark 1),
      (Event.scalar ⟨"2", ScalarStyle.plain, none⟩, mkMark 2),
      (Event.scalar ⟨"3", ScalarStyle.plain, none⟩, mkMark 3),
      (Event.sequenceEnd, mkMark 4)], [], none⟩

/-- The document `[1, 2]`. -/
def seq12Doc : Document :=
  ⟨[(Event.sequenceStart, mkMark 0),
      (Event.scalar ⟨"1", ScalarStyle.plain, none⟩, mkMark 1),
      (Event.scalar ⟨"2", ScalarStyle.plain, none⟩, mkMark 2),
      (Event.sequenceEnd, mkMark 3)], [], none⟩

/--
C7 counterexample: the claim says `[1, 2, 3]` decoded into a 2-tuple
succeeds with `(1, 2)` after silently draining the extra element.  In
fact the drained element is counted and `end_sequence` rejects the
mismatch: the decode fails with "invalid length 3, expected sequence of
2 elements".
-/
theorem claim_C7_counterexample :
    de_tuple seq123Doc pfNone 2 30 ⟨0, 128⟩ =
      (Except.error ⟨ErrKind.message (Msg.invalidLength 3 (Exp.seqElems 2)), some (mkMark 0)⟩,
        ⟨5, 128⟩) := rfl

/--
C7 (amended): decoding `[1, 2, 3]` into a 2-tuple fails with an
"invalid length" error naming 3 found versus a sequence of 2 expected —
the extra element is drained and counted, not silently accepted — while
decoding it into a 4-tuple fails with an "invalid length" error naming 3
found versus a tuple of size 4; an exactly-fitting `[1, 2]` into a
2-tuple succeeds with `(1, 2)`.
-/
theorem claim_C7_tuple_lengths :
    de_tuple seq123Doc pfNone 2 30 ⟨0, 128⟩ =
      (Except.error ⟨ErrKind.message (Msg.invalidLength 3 (Exp.seqElems 2)), some (mkMark 0)⟩,
        ⟨5, 128⟩) ∧
    de_tuple seq123Doc pfNone 4 30 ⟨0, 128⟩ =
      (Except.error ⟨ErrKind.message (Msg.invalidLength 3 (Exp.tupleOfSize 4)), some (mkMark 0)⟩,
        ⟨4, 128⟩) ∧
    de_tuple seq12Doc pfNone 2 30 ⟨0, 128⟩ = (Except.ok [1, 2], ⟨4, 128⟩) :=
  ⟨rfl, rfl, rfl⟩

/-- The document `{First: 1}`. -/
def enumMapDoc1 : Document :=
  ⟨[(Event.mappingStart, mkMark 0),
      (Event.scalar ⟨"First", ScalarStyle.plain, none⟩, mkMark 1),
      (Event.scalar ⟨"1", ScalarStyle.plain, none⟩, mkMark 2),
      (Event.mappingEnd, mkMark 3)], [], none⟩

/-- The document `{Second: 2}`. -/
def enumMapDoc2 : Document :=
  ⟨[(Event.mappingStart, mkMark 0),
      (Event.scalar ⟨"Second", ScalarStyle.plain, none⟩, mkMark 1),
      (Event.scalar ⟨"2", ScalarStyle.plain, none⟩, mkMark 2),
      (Event.mappingEnd, mkMark 3)], [], none⟩

/-- The document `{First: 1, Second: 2}`. -/
def enumMapDoc12 : Document :=
  ⟨[(Event.mappingStart, mkMark 0),
      (Event.scalar ⟨"First", ScalarStyle.plain, none⟩, mkMark 1),
      (Event.scalar ⟨"1", ScalarStyle.plain, none⟩, mkMark 2),
      (Event.scalar ⟨"Second", ScalarStyle.plain, none⟩, mkMark 3),
      (Event.scalar ⟨"2", ScalarStyle.plain, none⟩, mkMark 4),
      (Event.mappingEnd, mkMark 5)], [], none⟩

/--
C8 counterexample: the claim says a two-key map decodes to an error
"naming both the enum and the size 2".  The error does name the size 2,
but it is end_mapping's bare "invalid length 2, expected map containing
1 entry": it is identical for any enum name, so it cannot name the enum.
-/
theorem claim_C8_counterexample :
    de_enum enumMapDoc12 pfNone "ExampleEnum" ["First", "Second"] 30 ⟨0, 128⟩ =
      (Except.error ⟨ErrKind.message (Msg.invalidLength 2 (Exp.mapEntries 1)), none⟩,
        ⟨6, 128⟩) ∧
    de_enum enumMapDoc12 pfNone "ExampleEnum" ["First", "Second"] 30 ⟨0, 128⟩ =
      de_enum enumMapDoc12 pfNone "ACompletelyDifferentName" ["First", "Second"] 30 ⟨0, 128⟩ :=
  ⟨rfl, rfl⟩

/--
C8 (amended): `deserialize_enum` on a `MappingStart` consumes exactly one
key as the variant name and that key's value as the payload and requires
the mapping to close immediately: `{First: 1}` and `{Second: 2}` each
select the matching variant, while `{First: 1, Second: 2}` fails with an
invalid-length error naming the found size 2 against the expected
single-entry map — an error that does not mention the enum's name.
-/
theorem claim_C8_singleton_map_enum :
    de_enum enumMapDoc1 pfNone "ExampleEnum" ["First", "Second"] 30 ⟨0, 128⟩ =
      (Except.ok (0, 1), ⟨4, 128⟩) ∧
    de_enum enumMapDoc2 pfNone "ExampleEnum" ["First", "Second"] 30 ⟨0, 128⟩ =
      (Except.ok (1, 2), ⟨4, 128⟩) ∧
    de_enum enumMapDoc12 pfNone "ExampleEnum" ["First", "Second"] 30 ⟨0, 128⟩ =
      (Except.error ⟨ErrKind.message (Msg.invalidLength 2 (Exp.mapEntries 1)), none⟩,
        ⟨6, 128⟩) ∧
    (∀ name1 name2 : String,
      de_enum enumMapDoc12 pfNone name1 ["First", "Second"] 30 ⟨0, 128⟩ =
        de_enum enumMapDoc12 pfNone name2 ["First", "Second"] 30 ⟨0, 128⟩) :=
  ⟨rfl, rfl, rfl, fun name1 name2 => rfl⟩

/-! ## String-shaped requests -/

/-- A `!!int`-tagged plain scalar `5`. -/
def intTagScalarDoc : Document :=
  ⟨[(Event.scalar ⟨"5", ScalarStyle.plain, some tagINT⟩, mkMark 0)], [], none⟩

/--
C10: when a string is requested (`deserialize_str`, and the forwarding
`deserialize_string`, `deserialize_char`, `deserialize_identifier`), any
scalar yields its text verbatim — whatever its style and tag, built-in
tags such as `!!int` included — bypassing untagged inference and
tag-directed parsing; an alias is still followed to its target; a
sequence or mapping start is a type error.
-/
theorem claim_C10_str_verbatim (doc : Document) (pf : PF) (fuel : Nat) (s : DeState) :
    (∀ sc m, doc.events[s.pos]? = some (Event.scalar sc, m) →
      de_str doc pf (fuel + 1) s = (Except.ok sc.value, ⟨s.pos + 1, s.depth⟩) ∧
      de_string doc pf (fuel + 1) s = (Except.ok sc.value, ⟨s.pos + 1, s.depth⟩) ∧
      de_char doc pf (fuel + 1) s = (Except.ok sc.value, ⟨s.pos + 1, s.depth⟩) ∧
      de_identifier doc pf (fuel + 1) s = (Except.ok sc.value, ⟨s.pos + 1, s.depth⟩)) ∧
    (∀ id m t, doc.events[s.pos]? = some (Event.alias id, m) →
      doc.aliases.lookup id = some t →
      de_str doc pf (fuel + 1) s =
        (fixMarkE (de_str doc pf fuel ⟨t, s.depth⟩).1 m, ⟨s.pos + 1, s.depth⟩)) ∧
    (∀ m, doc.events[s.pos]? = some (Event.sequenceStart, m) →
      de_str doc pf (fuel + 1) s =
        (Except.error ⟨ErrKind.message (Msg.invalidType Unexp.seq (Exp.desc "a string")), some m⟩,
          ⟨s.pos + 1, s.depth⟩)) ∧
    (∀ m, doc.events[s.pos]? = some (Event.mappingStart, m) →
      de_str doc pf (fuel + 1) s =
        (Except.error ⟨ErrKind.message (Msg.invalidType Unexp.map (Exp.desc "a string")), some m⟩,
          ⟨s.pos + 1, s.depth⟩)) := by
  refine ⟨fun sc m hev => ?_, fun id m t hev hal => ?_, fun m hev => ?_, fun m hev => ?_⟩
  · have hpk : peek doc s = Except.ok (Event.scalar sc, m) := by simp [peek, hev]
    refine ⟨?_, ?_, ?_, ?_⟩ <;> simp only [de_string, de_char, de_identifier, de_str, hpk]
  · have hpk : peek doc s = Except.ok (Event.alias id, m) := by simp [peek, hev]
    simp only [de_str, hpk, hal]
  · have hpk : peek doc s = Except.ok (Event.sequenceStart, m) := by simp [peek, hev]
    simp only [de_str, hpk]
    rfl
  · have hpk : peek doc s = Except.ok (Event.mappingStart, m) := by simp [peek, hev]
    simp only [de_str, hpk]
    rfl

/-- Witness for C10: a `!!int`-tagged scalar requested as a string comes
back verbatim instead of being parsed as an integer. -/
theorem claim_C10_witness :
    de_str intTagScalarDoc pfNone 3 ⟨0, 128⟩ = (Except.ok "5", ⟨1, 128⟩) :=
  ((claim_C10_str_verbatim intTagScalarDoc pfNone 2 ⟨0, 128⟩).1
    ⟨"5", ScalarStyle.plain, some tagINT⟩ (mkMark 0) rfl).1

/-! ## Skipping one node (`ignore_any`) -/

/-- Well-formed single nodes (`true`) and well-formed node lists
(`false`) of the event grammar, used to state what "one complete node"
means for the skip routine. -/
inductive Bal : Bool → List Event → Prop where
  | scalar (sc : Scalar) : Bal true [Event.scalar sc]
  | aliasLeaf (i : Nat) : Bal true [Event.alias i]
  | seqn {es : List Event} : Bal false es →
      Bal true (Event.sequenceStart :: es ++ [Event.sequenceEnd])
  | mapn {es : List Event} : Bal false es →
      Bal true (Event.mappingStart :: es ++ [Event.mappingEnd])
  | nil : Bal false []
  | cons {e es : List Event} : Bal true e → Bal false es → Bal false (e ++ es)

/-- Read one event off a drop-suffix description of the buffer. -/
theorem dropStep {doc : Document} {pos : Nat} {x : Event} {ys : List Event}
    (h : (doc.events.drop pos).map Prod.fst = x :: ys) :
    ∃ m, doc.events[pos]? = some (x, m) ∧ (doc.events.drop (pos + 1)).map Prod.fst = ys := by
  cases hd : doc.events.drop pos with
  | nil => rw [hd] at h; cases h
  | cons p t =>
    rw [hd] at h
    simp only [List.map_cons] at h
    obtain ⟨h1, h2⟩ := List.cons.inj h
    obtain ⟨pe, pm⟩ := p
    refine ⟨pm, ?_, ?_⟩
    · have hg : doc.events[pos]? = (doc.events.drop pos)[0]? := by
        rw [List.getElem?_drop]
        norm_num
      rw [hg, hd]
      simp only [List.getElem?_cons_zero]
      simp only at h1
      rw [h1]
    · have ht : doc.events.drop (pos + 1) = t := by
        rw [← List.tail_drop, hd]
        rfl
      rw [ht, h2]

/-- Walk a whole prefix of events off a drop-suffix description. -/
theorem dropMany {doc : Document} {pos : Nat} {xs ys : List Event}
    (h : (doc.events.drop pos).map Prod.fst = xs ++ ys) :
    (doc.events.drop (pos + xs.length)).map Prod.fst = ys := by
  induction xs generalizing pos with
  | nil => simpa using h
  | cons x xs ih =>
    obtain ⟨m, hev, hdrop⟩ := dropStep (by simpa using h)
    have hh := ih hdrop
    have harith : pos + 1 + xs.length = pos + (x :: xs).length := by simp; omega
    rw [harith] at hh
    exact hh

/-- The skip loop consumes exactly one balanced node: with a non-empty
stack it passes over the node unchanged; from the empty stack it returns
right after the node. Fuel is consumed one unit per event. -/
theorem bal_ignoreGo {b : Bool} {l : List Event} (hb : Bal b l) :
    ∀ (doc : Document) (stack : List Nest) (pos : Nat) (rest : List Event) (fuel : Nat),
      (doc.events.drop pos).map Prod.fst = l ++ rest →
      (stack ≠ [] →
        ignoreGo doc (fuel + l.length) stack pos = ignoreGo doc fuel stack (pos + l.length)) ∧
      (b = true → ignoreGo doc (fuel + l.length) [] pos = (Except.ok (), pos + l.length)) := by
  induction hb with
  | scalar sc =>
    intro doc stack pos rest fuel h
    obtain ⟨m, hev, hdrop⟩ := dropStep h
    refine ⟨fun hst => ?_, fun _ => by simp [ignoreGo, hev]⟩
    cases stack with
    | nil => exact absurd rfl hst
    | cons s0 srest => simp [ignoreGo, hev]
  | aliasLeaf i =>
    intro doc stack pos rest fuel h
    obtain ⟨m, hev, hdrop⟩ := dropStep h
    refine ⟨fun hst => ?_, fun _ => by simp [ignoreGo, hev]⟩
    cases stack with
    | nil => exact absurd rfl hst
    | cons s0 srest => simp [ignoreGo, hev]
  | seqn hes ih =>
    rename_i es
    intro doc stack pos rest fuel h
    have h' : (doc.events.drop pos).map Prod.fst =
        Event.sequenceStart :: (es ++ ([Event.sequenceEnd] ++ rest)) := by
      simpa using h
    obtain ⟨m, hev, hdrop⟩ := dropStep h'
    have hitems : ∀ st : List Nest,
        ignoreGo doc ((fuel + 1) + es.length) (Nest.seq :: st) (pos + 1) =
          ignoreGo doc (fuel + 1) (Nest.seq :: st) (pos + 1 + es.length) :=
      fun st => (ih doc (Nest.seq :: st) (pos + 1) ([Event.sequenceEnd] ++ rest)
        (fuel + 1) hdrop).1 (by simp)
    have hdrop2 := dropMany hdrop
    obtain ⟨m2, hev2, _⟩ := dropStep hdrop2
    have hlen : (Event.sequenceStart :: es ++ [Event.sequenceEnd]).length = es.length + 2 := by
      simp
    have hstep : ∀ st : List Nest, ignoreGo doc (fuel + (es.length + 2)) st pos =
        ignoreGo doc ((fuel + 1) + es.length) (Nest.seq :: st) (pos + 1) := by
      intro st
      have harith : fuel + (es.length + 2) = ((fuel + 1) + es.length) + 1 := by omega
      rw [harith]
      simp [ignoreGo, hev]
    constructor
    · intro hst
      cases stack with
      | nil => exact absurd rfl hst
      | cons s0 srest =>
        rw [hlen, hstep (s0 :: srest), hitems (s0 :: srest)]
        simp only [ignoreGo, hev2, List.isEmpty_cons]
        have harith2 : pos + 1 + es.length + 1 = pos + (es.length + 2) := by omega
        rw [harith2]
        simp
    · intro _
      rw [hlen, hstep [], hitems []]
      simp only [ignoreGo, hev2, List.isEmpty_nil]
      have harith2 : pos + 1 + es.length + 1 = pos + (es.length + 2) := by omega
      simp [harith2]
  | mapn hes ih =>
    rename_i es
    intro doc stack pos rest fuel h
    have h' : (doc.events.drop pos).map Prod.fst =
        Event.mappingStart :: (es ++ ([Event.mappingEnd] ++ rest)) := by
      simpa using h
    obtain ⟨m, hev, hdrop⟩ := dropStep h'
    have hitems : ∀ st : List Nest,
        ignoreGo doc ((fuel + 1) + es.length) (Nest.map :: st) (pos + 1) =
          ignoreGo doc (fuel + 1) (Nest.map :: st) (pos + 1 + es.length) :=
      fun st => (ih doc (Nest.map :: st) (pos + 1) ([Event.mappingEnd] ++ rest)
        (fuel + 1) hdrop).1 (by simp)
    have hdrop2 := dropMany hdrop
    obtain ⟨m2, hev2, _⟩ := dropStep hdrop2
    have hlen : (Event.mappingStart :: es ++ [Event.mappingEnd]).length = es.length + 2 := by
      simp
    have hstep : ∀ st : List Nest, ignoreGo doc (fuel + (es.length + 2)) st pos =
        ignoreGo doc ((fuel + 1) + es.length) (Nest.map :: st) (pos + 1) := by
      intro st
      have harith : fuel + (es.length + 2) = ((fuel + 1) + es.length) + 1 := by omega
      rw [harith]
      simp [ignoreGo, hev]
    constructor
    · intro hst
      cases stack with
      | nil => exact absurd rfl hst
      | cons s0 srest =>
        rw [hlen, hstep (s0 :: srest), hitems (s0 :: srest)]
        simp only [ignoreGo, hev2, List.isEmpty_cons]
        have harith2 : pos + 1 + es.length + 1 = pos + (es.length + 2) := by omega
        rw [harith2]
        simp
    · intro _
      rw [hlen, hstep [], hitems []]
      simp only [ignoreGo, hev2, List.isEmpty_nil]
      have harith2 : pos + 1 + es.length + 1 = pos + (es.length + 2) := by omega
      simp [harith2]
  | nil =>
    intro doc stack pos rest fuel h
    refine ⟨fun hst => by simp, fun hfalse => Bool.noConfusion hfalse⟩
  | cons he hes ihe ihes =>
    rename_i e es
    intro doc stack pos rest fuel h
    have h' : (doc.events.drop pos).map Prod.fst = e ++ (es ++ rest) := by
      simpa using h
    refine ⟨fun hst => ?_, fun hfalse => Bool.noConfusion hfalse⟩
    have hnode := (ihe doc stack pos (es ++ rest) (fuel + es.length) h').1 hst
    have hdrop2 := @dropMany doc pos e (es ++ rest) h'
    have hitems := (ihes doc stack (pos + e.length) rest fuel hdrop2).1 hst
    have h1 : fuel + (e ++ es).length = (fuel + es.length) + e.length := by simp; omega
    rw [h1, hnode, hitems]
    congr 1
    simp
    omega

/-- The skip loop can fail only with end-of-input, a stored parse error,
or a panic — never with a recursion-limit error. -/
theorem ignoreGo_no_recursion_limit (doc : Document) :
    ∀ fuel stack pos mk, (ignoreGo doc fuel stack pos).1 ≠
      Except.error ⟨ErrKind.recursionLimitExceeded, mk⟩ := by
  intro fuel
  induction fuel with
  | zero =>
    intro stack pos mk h
    simp [ignoreGo, outOfFuelErr] at h
  | succ f ih =>
    intro stack pos mk
    simp only [ignoreGo]
    repeat' split
    all_goals first
      | exact ih _ _ _
      | (intro h; simp [peekPastEnd, panicErr] at h; try split at h) <;> simp_all

/-- The skip loop never consults the alias index: it treats aliases as
leaves instead of jumping to their targets. -/
theorem ignoreGo_aliases_irrelevant (evs : List (Event × Mark)) (pe : Option String)
    (al1 al2 : List (Nat × Nat)) :
    ∀ fuel stack pos,
      ignoreGo ⟨evs, al1, pe⟩ fuel stack pos = ignoreGo ⟨evs, al2, pe⟩ fuel stack pos := by
  intro fuel
  induction fuel with
  | zero => intro stack pos; rfl
  | succ f ih =>
    intro stack pos
    simp only [ignoreGo]
    repeat' split
    all_goals first
      | rfl
      | exact ih _ _

/-- An alias event is skipped as a single atomic leaf. -/
theorem ignore_any_alias_leaf (doc : Document) (pos : Nat) (id : Nat) (m : Mark)
    (hev : doc.events[pos]? = some (Event.alias id, m)) :
    ignore_any doc pos = (Except.ok (), pos + 1) := by
  have hlt : pos < doc.events.length := by
    by_contra hge
    rw [List.getElem?_eq_none (by omega)] at hev
    exact Option.noConfusion hev
  obtain ⟨f, hf⟩ : ∃ f, doc.events.length + 1 - pos = f + 1 := ⟨doc.events.length - pos, by omega⟩
  unfold ignore_any
  rw [hf]
  simp [ignoreGo, hev]

/--
C9: the skip routine backing `deserialize_ignored_any` and the
end-of-container drain advances the cursor past exactly one complete
balanced node using an explicit stack; it treats an alias event as an
atomic leaf (never consulting the alias index), passes the recursion
budget through untouched, always succeeds on balanced input however deep
the node is, and can never produce a recursion-limit error.
-/
theorem claim_C9_skip_whole_node (doc : Document) :
    (∀ ns rest pos, Bal true ns →
      (doc.events.drop pos).map Prod.fst = ns ++ rest →
      ignore_any doc pos = (Except.ok (), pos + ns.length)) ∧
    (∀ pos id m, doc.events[pos]? = some (Event.alias id, m) →
      ignore_any doc pos = (Except.ok (), pos + 1)) ∧
    (∀ (evs : List (Event × Mark)) (pe : Option String) (al1 al2 : List (Nat × Nat))
        (fuel : Nat) (stack : List Nest) (pos : Nat),
      ignoreGo ⟨evs, al1, pe⟩ fuel stack pos = ignoreGo ⟨evs, al2, pe⟩ fuel stack pos) ∧
    (∀ s, de_ignored_any doc s =
      ((ignore_any doc s.pos).1, ⟨(ignore_any doc s.pos).2, s.depth⟩)) ∧
    (∀ fuel stack pos mk, (ignoreGo doc fuel stack pos).1 ≠
      Except.error ⟨ErrKind.recursionLimitExceeded, mk⟩) := by
  refine ⟨fun ns rest pos hb h => ?_, ignore_any_alias_leaf doc,
    fun evs pe al1 al2 fuel stack pos => ignoreGo_aliases_irrelevant evs pe al1 al2 fuel stack pos,
    fun s => ?_, ignoreGo_no_recursion_limit doc⟩
  · have hlen0 := congrArg List.length h
    simp only [List.length_map, List.length_drop, List.length_append] at hlen0
    obtain ⟨f, hf⟩ : ∃ f, doc.events.length + 1 - pos = f + ns.length :=
      ⟨doc.events.length + 1 - pos - ns.length, by omega⟩
    unfold ignore_any
    rw [hf]
    exact (bal_ignoreGo hb doc [] pos rest f h).2 rfl
  · unfold de_ignored_any
    cases hig : ignore_any doc s.pos with
    | mk r p' => simp

/-- The document `["x"]` used to witness the skip theorem. -/
def skipDoc : Document :=
  ⟨[(Event.sequenceStart, mkMark 0), (Event.scalar ⟨"x", ScalarStyle.plain, none⟩, mkMark 1),
      (Event.sequenceEnd, mkMark 2)], [], none⟩

/-- Witness for C9: skipping the three-event sequence node in one call. -/
theorem claim_C9_witness :
    ignore_any skipDoc 0 = (Except.ok (), 3) :=
  (claim_C9_skip_whole_node skipDoc).1
    (Event.sequenceStart :: [Event.scalar ⟨"x", ScalarStyle.plain, none⟩] ++ [Event.sequenceEnd])
    [] 0
    (Bal.seqn (Bal.cons (Bal.scalar ⟨"x", ScalarStyle.plain, none⟩) Bal.nil))
    (by simp [skipDoc])

/-- Witness for C1: the inference applied at concrete inputs through the
theorem itself. -/
theorem claim_C1_witness :
    visit_untagged_str pfNone "12" = Visit.u64 12 ∧
    visit_untagged_str pfNone "-7" = Visit.i64 (-7) ∧
    visit_untagged_str pfNone "00" = Visit.str "00" ∧
    visit_untagged_str pfNone "~" = Visit.unit := by
  obtain ⟨hunit, hbool, hu64, hi64, hu128, hi128, hdb, hinf, hfl, hex⟩ :=
    claim_C1_untagged_inference pfNone
  refine ⟨hu64 "12" 12 (by decide), hi64 "-7" (-7) (by decide) (by decide),
    hdb "00" (by decide), (hunit "~").mpr (Or.inr (Or.inl rfl))⟩

end SY
